import Mathlib

/-!
Shallow embedding of the repository `heat` (files `evaluate_nc.py` and
`heat/losses.py`) together with proofs of the documented properties.

Modelling conventions:
* The persisted result store (`save_test_results`) is modelled at the level of
  parsed tables: `pandas.to_csv`/`read_csv` round-trip a table written by this
  module, so a file on disk is modelled as holding its parsed table.  A missing
  cell (written as an empty field, read back as `NaN`) is modelled as an absent
  association-list key.  Scores are stored and copied, never combined
  arithmetically, so cell values are modelled as exact rationals.
* `fcntl` locking is modelled by an environment oracle telling whether each
  non-blocking lock attempt succeeds, and by an explicit event trace.
* The scikit-learn estimators, splitters and metrics called by
  `evaluate_node_classification` are not part of this repository; they are
  modelled as an explicit record of oracle functions.  The split constructors
  receive the `random_state` argument and a global random-generator state
  (`numpy`'s hidden state, used only when `random_state=None`).
* The tensor arithmetic of `heat/losses.py` is modelled over an abstract
  linearly ordered field with the transcendental primitives (`exp`, `log`,
  `acosh`) supplied as a record, so that every definition stays executable.
-/

/- ### Part 1: the result aggregator (`save_test_results`) -/

/-- A persisted result row: association list from column name to cell value.
An absent key models a missing cell (`NaN` in the CSV). -/
abbrev ResultRow : Type := List (String × ℚ)

/-- A persisted result table: one `(seed, row)` pair per CSV line, the seed
being the `pandas` index of the row. -/
abbrev ResultTable : Type := List (ℤ × ResultRow)

/-- The filesystem seen by the aggregator: a map from filename to the parsed
table held by the file, `none` when the file does not exist. -/
abbrev FileSys : Type := String → Option ResultTable

/-- Look a column up in a row (a Python `dict` lookup: first match). -/
def rowLookup (r : ResultRow) (c : String) : Option ℚ :=
  (r.find? (fun p => p.1 == c)).map (fun p => p.2)

/-- The column names present in a row. -/
def rowKeys (r : ResultRow) : List String := r.map (fun p => p.1)

/-- Look a seed up in a table (`DataFrame.loc` on the index). -/
def tableRow (t : ResultTable) (s : ℤ) : Option ResultRow :=
  (t.find? (fun p => p.1 == s)).map (fun p => p.2)

/-- The index (list of seeds, one per row) of a table. -/
def tableSeeds (t : ResultTable) : List ℤ := t.map (fun p => p.1)

/-- The value of the cell at row `s`, column `c` (`none` models `NaN`). -/
def getCell (t : ResultTable) (s : ℤ) (c : String) : Option ℚ :=
  (tableRow t s).bind (fun r => rowLookup r c)

/-- All column names appearing in a table. -/
def tableCols (t : ResultTable) : List String :=
  (t.map (fun p => rowKeys p.2)).flatten

/-- Sorted deduplicated union of two indexes, as `pandas.Index.union`
produces when merging frames. -/
def indexUnion (a b : List ℤ) : List ℤ :=
  List.insertionSort (· ≤ ·) ((a ++ b).dedup)

/-- Lexicographic comparison of character lists by code point, the order in
which Python (and hence `pandas`) compares strings. -/
def lexLe : List Char → List Char → Bool
  | [], _ => true
  | _ :: _, [] => false
  | a :: as, b :: bs =>
    if a.toNat < b.toNat then true
    else if b.toNat < a.toNat then false
    else lexLe as bs

/-- String comparison by code-point lexicographic order. -/
def strLe (a b : String) : Bool := lexLe a.data b.data

/-- Sorted deduplicated union of two column sets. -/
def colUnion (a b : List String) : List String :=
  List.insertionSort (fun x y => strLe x y = true) ((a ++ b).dedup)

/-- `pandas.DataFrame.combine_first`: the result's index and columns are the
(sorted) unions of the operands'; at each cell the caller's (`d`, the new
frame's) non-null value takes precedence and gaps are filled from `t`. -/
def combine_first (d t : ResultTable) : ResultTable :=
  (indexUnion (tableSeeds d) (tableSeeds t)).map (fun s =>
    (s, (colUnion (tableCols d) (tableCols t)).filterMap (fun c =>
          ((getCell d s c).or (getCell t s c)).map (fun v => (c, v)))))

/-- The table written by one `save_test_results` call: the single-row frame
`pd.DataFrame(index=[seed], data=data)`, merged over the existing file via
`combine_first` when the file exists. -/
def savedTable (fs : FileSys) (filename : String) (seed : ℤ)
    (data : ResultRow) : ResultTable :=
  let d : ResultTable := [(seed, data)]
  match fs filename with
  | some t => combine_first d t
  | none => d

/-- `save_test_results(filename, seed, data)` as a filesystem transformer:
build the one-row frame, merge it over the existing file if any, and write the
result back to `filename`. -/
def save_test_results (fs : FileSys) (filename : String) (seed : ℤ)
    (data : ResultRow) : FileSys :=
  fun fn => if fn = filename then some (savedTable fs filename seed data) else fs fn

/-- A sequence of `save_test_results` calls against the same filename. -/
def applySaves (fs : FileSys) (filename : String)
    (calls : List (ℤ × ResultRow)) : FileSys :=
  calls.foldl (fun acc c => save_test_results acc filename c.1 c.2) fs

/- Basic lemmas about table lookup. -/

theorem rowLookup_eq_none (r : ResultRow) (c : String) :
    rowLookup r c = none ↔ c ∉ rowKeys r := by
  rw [rowLookup, Option.map_eq_none', List.find?_eq_none]
  constructor
  · intro h hc
    rcases List.mem_map.mp hc with ⟨p, hp, he⟩
    exact absurd (by rw [beq_iff_eq]; exact he) (h p hp)
  · intro h p hp hb
    rw [beq_iff_eq] at hb
    exact h (List.mem_map.mpr ⟨p, hp, hb⟩)

theorem rowLookup_isSome (r : ResultRow) (c : String) (h : c ∈ rowKeys r) :
    ∃ v, rowLookup r c = some v := by
  rcases ho : rowLookup r c with _ | v
  · exact absurd ((rowLookup_eq_none r c).mp ho) (by simp [h])
  · exact ⟨v, rfl⟩

theorem tableRow_eq_none (t : ResultTable) (s : ℤ) :
    s ∉ tableSeeds t → tableRow t s = none := by
  intro h
  rw [tableRow, Option.map_eq_none', List.find?_eq_none]
  rintro ⟨a, b⟩ hm hp
  rw [beq_iff_eq] at hp
  exact h (List.mem_map.mpr ⟨(a, b), hm, hp⟩)

theorem getCell_eq_none_of_not_mem_seeds (t : ResultTable) (s : ℤ)
    (c : String) (h : s ∉ tableSeeds t) : getCell t s c = none := by
  simp [getCell, tableRow_eq_none t s h]

theorem getCell_eq_none_of_not_mem_cols (t : ResultTable) (s : ℤ)
    (c : String) (h : c ∉ tableCols t) : getCell t s c = none := by
  rcases hr : tableRow t s with _ | r
  · simp [getCell, hr]
  · simp only [getCell, hr, Option.some_bind]
    rw [rowLookup_eq_none]
    intro hc
    apply h
    rw [tableCols, List.mem_flatten]
    rcases Option.map_eq_some'.mp hr with ⟨p, hfind, hp2⟩
    refine ⟨rowKeys p.2, List.mem_map.mpr ⟨p, List.mem_of_find?_eq_some hfind, rfl⟩, ?_⟩
    rw [hp2]
    exact hc

/-- Membership in the sorted deduplicated index union. -/
theorem mem_indexUnion (a b : List ℤ) (s : ℤ) :
    s ∈ indexUnion a b ↔ s ∈ a ∨ s ∈ b := by
  rw [indexUnion, (List.perm_insertionSort (· ≤ ·) _).mem_iff]
  simp

/-- The index union has no duplicates. -/
theorem nodup_indexUnion (a b : List ℤ) : (indexUnion a b).Nodup :=
  (List.perm_insertionSort (· ≤ ·) _).nodup_iff.mpr (List.nodup_dedup _)

/-- Looking up a key in a key-indexed map image. -/
theorem find?_map_key {α : Type} (f : ℤ → α) (keys : List ℤ) (s : ℤ)
    (h : s ∈ keys) :
    (keys.map (fun k => (k, f k))).find? (fun p => p.1 == s) = some (s, f s) := by
  induction keys with
  | nil => cases h
  | cons k ks ih =>
    by_cases hk : k = s
    · subst hk
      rw [List.map_cons, List.find?_cons_of_pos _ (by simp)]
    · have hmem : s ∈ ks := by
        rcases List.mem_cons.mp h with h1 | h1
        · exact absurd h1.symm hk
        · exact h1
      rw [List.map_cons, List.find?_cons_of_neg _ (by simp [hk])]
      exact ih hmem

theorem find?_map_key_none {α : Type} (f : ℤ → α) (keys : List ℤ) (s : ℤ)
    (h : s ∉ keys) :
    (keys.map (fun k => (k, f k))).find? (fun p => p.1 == s) = none := by
  rw [List.find?_eq_none]
  rintro ⟨a, b⟩ hm hp
  rw [beq_iff_eq] at hp
  subst hp
  rcases List.mem_map.mp hm with ⟨k, hk, he⟩
  cases he
  exact h hk

/-- Looking a column up in a row built by `filterMap` over a column list. -/
theorem rowLookup_filterMap (v : String → Option ℚ) (cols : List String)
    (c : String) :
    rowLookup (cols.filterMap (fun c => (v c).map (fun x => (c, x)))) c =
      if c ∈ cols then v c else none := by
  induction cols with
  | nil => simp [rowLookup]
  | cons c₀ cs ih =>
    rcases hv : v c₀ with _ | x
    · rw [List.filterMap_cons_none (by simp [hv]), ih]
      by_cases hc0 : c₀ = c
      · subst hc0
        by_cases hc : c₀ ∈ cs <;> simp [hc, hv]
      · simp [hc0, Ne.symm hc0]
    · have hstep : (c₀ :: cs).filterMap (fun c => (v c).map (fun x => (c, x))) =
          (c₀, x) :: cs.filterMap (fun c => (v c).map (fun x => (c, x))) := by
        simp [List.filterMap_cons, hv]
      rw [hstep]
      by_cases hc0 : c₀ = c
      · subst hc0
        rw [rowLookup, List.find?_cons_of_pos _ (by simp)]
        simp [hv]
      · rw [rowLookup, List.find?_cons_of_neg _ (by simp [hc0])]
        rw [← rowLookup, ih]
        simp [hc0, Ne.symm hc0]

/-- Cell-level semantics of `combine_first`: the new frame's value wins at
every cell where it is non-null, and gaps are filled from the old table. -/
theorem getCell_combine_first (d t : ResultTable) (s : ℤ) (c : String) :
    getCell (combine_first d t) s c = (getCell d s c).or (getCell t s c) := by
  by_cases hs : s ∈ indexUnion (tableSeeds d) (tableSeeds t)
  · have hrow : tableRow (combine_first d t) s =
        some ((colUnion (tableCols d) (tableCols t)).filterMap (fun c =>
          ((getCell d s c).or (getCell t s c)).map (fun v => (c, v)))) := by
      simp only [combine_first, tableRow]
      rw [find?_map_key (fun s =>
        (colUnion (tableCols d) (tableCols t)).filterMap (fun c =>
          ((getCell d s c).or (getCell t s c)).map (fun v => (c, v)))) _ _ hs]
      rfl
    rw [getCell, hrow, Option.some_bind, rowLookup_filterMap]
    by_cases hc : c ∈ colUnion (tableCols d) (tableCols t)
    · simp [hc]
    · have hcd : c ∉ tableCols d := fun h => hc (by
        rw [colUnion, (List.perm_insertionSort (fun x y => strLe x y = true) _).mem_iff]
        simp [h])
      have hct : c ∉ tableCols t := fun h => hc (by
        rw [colUnion, (List.perm_insertionSort (fun x y => strLe x y = true) _).mem_iff]
        simp [h])
      simp [hc, getCell_eq_none_of_not_mem_cols d s c hcd,
        getCell_eq_none_of_not_mem_cols t s c hct]
  · have hd : s ∉ tableSeeds d := fun h => hs ((mem_indexUnion _ _ s).mpr (.inl h))
    have ht : s ∉ tableSeeds t := fun h => hs ((mem_indexUnion _ _ s).mpr (.inr h))
    have hrow : tableRow (combine_first d t) s = none := by
      simp only [combine_first, tableRow]
      rw [find?_map_key_none _ _ _ hs]
      rfl
    simp only [getCell, hrow, Option.none_bind]
    rw [tableRow_eq_none d s hd, tableRow_eq_none t s ht]
    rfl

theorem map_fst_map_key {α : Type} (f : ℤ → α) (keys : List ℤ) :
    (keys.map (fun k => (k, f k))).map (fun p => p.1) = keys := by
  induction keys with
  | nil => rfl
  | cons k ks ih => simp only [List.map_cons, ih]

/-- The index of a merged table is the sorted deduplicated union. -/
theorem tableSeeds_combine_first (d t : ResultTable) :
    tableSeeds (combine_first d t) = indexUnion (tableSeeds d) (tableSeeds t) := by
  rw [tableSeeds, combine_first]
  exact map_fst_map_key _ _

/-- Every table a `save_test_results` call writes has a duplicate-free index. -/
theorem savedTable_nodup (fs : FileSys) (filename : String) (seed : ℤ)
    (data : ResultRow) : (tableSeeds (savedTable fs filename seed data)).Nodup := by
  rcases h : fs filename with _ | t
  · simp [savedTable, h, tableSeeds]
  · rw [savedTable, h]
    rw [tableSeeds_combine_first]
    exact nodup_indexUnion _ _

theorem getCell_singleton_self (seed : ℤ) (data : ResultRow) (c : String) :
    getCell [(seed, data)] seed c = rowLookup data c := by
  rw [getCell, tableRow, List.find?_cons_of_pos _ (by simp)]
  rfl

theorem getCell_singleton_ne (seed : ℤ) (data : ResultRow) (s : ℤ) (c : String)
    (h : s ≠ seed) : getCell [(seed, data)] s c = none := by
  rw [getCell, tableRow, List.find?_cons_of_neg _ (by simp [Ne.symm h])]
  rfl

/-- With an existing file, a save writes the `combine_first` merge; cell-wise
the new one-row frame wins and gaps are filled from the old table. -/
theorem getCell_savedTable_exists (fs : FileSys) (filename : String)
    (t : ResultTable) (seed : ℤ) (data : ResultRow) (h : fs filename = some t)
    (s : ℤ) (c : String) :
    getCell (savedTable fs filename seed data) s c =
      (getCell [(seed, data)] s c).or (getCell t s c) := by
  simp only [savedTable, h]
  exact getCell_combine_first _ _ _ _

/-- Any table reachable by a sequence of saves has a duplicate-free index. -/
theorem applySaves_table_nodup (filename : String) :
    ∀ (calls : List (ℤ × ResultRow)) (fs : FileSys),
      (∀ t0, fs filename = some t0 → (tableSeeds t0).Nodup) →
      ∀ t, applySaves fs filename calls filename = some t →
        (tableSeeds t).Nodup := by
  intro calls
  induction calls with
  | nil =>
    intro fs hfs t ht
    exact hfs t (by simpa [applySaves] using ht)
  | cons cl cls ih =>
    intro fs hfs t ht
    have hstep : ∀ t0,
        save_test_results fs filename cl.1 cl.2 filename = some t0 →
        (tableSeeds t0).Nodup := by
      intro t0 h0
      have he : t0 = savedTable fs filename cl.1 cl.2 := by
        have hw : save_test_results fs filename cl.1 cl.2 filename =
            some (savedTable fs filename cl.1 cl.2) := by
          simp [save_test_results]
        rw [hw] at h0
        exact (Option.some_inj.mp h0).symm
      rw [he]
      exact savedTable_nodup fs filename cl.1 cl.2
    have hrec : applySaves (save_test_results fs filename cl.1 cl.2) filename
        cls filename = some t := ht
    exact ih (save_test_results fs filename cl.1 cl.2) hstep t hrec

/-- C1: across any sequence of `save_test_results` calls on the same filename
the persisted table keeps at most one row per seed; saving an already present
seed overwrites that row cell-wise (a column present in `data` takes the new
value, a column absent from `data` keeps its old value) and leaves every row
of a different seed untouched. -/
theorem C1_result_table_upsert (fs₀ : FileSys) (filename : String)
    (h₀ : fs₀ filename = none) :
    (∀ calls t s, applySaves fs₀ filename calls filename = some t →
       (tableSeeds t).count s ≤ 1)
    ∧ (∀ fs seed data,
         save_test_results fs filename seed data filename =
           some (savedTable fs filename seed data))
    ∧ (∀ fs t seed data c, fs filename = some t →
         (c ∈ rowKeys data →
            getCell (savedTable fs filename seed data) seed c = rowLookup data c)
         ∧ (c ∉ rowKeys data →
            getCell (savedTable fs filename seed data) seed c = getCell t seed c)
         ∧ (∀ s, s ≠ seed →
            getCell (savedTable fs filename seed data) s c = getCell t s c)) := by
  refine ⟨?_, ?_, ?_⟩
  · intro calls t s hsave
    have hnd := applySaves_table_nodup filename calls fs₀
      (fun t0 h0 => by rw [h₀] at h0; cases h0) t hsave
    exact List.nodup_iff_count_le_one.mp hnd s
  · intro fs seed data
    simp [save_test_results]
  · intro fs t seed data c hex
    refine ⟨?_, ?_, ?_⟩
    · intro hc
      rw [getCell_savedTable_exists fs filename t seed data hex,
        getCell_singleton_self]
      rcases rowLookup_isSome data c hc with ⟨v, hv⟩
      rw [hv]
      rfl
    · intro hc
      rw [getCell_savedTable_exists fs filename t seed data hex,
        getCell_singleton_self, (rowLookup_eq_none data c).mpr hc]
      rfl
    · intro s hne
      rw [getCell_savedTable_exists fs filename t seed data hex,
        getCell_singleton_ne _ _ _ _ hne]
      rfl

theorem C1_result_table_upsert_witness :
    ((fun _ => none : FileSys) "f" = none)
    ∧ applySaves (fun _ => none) "f" [(3, [("a", 1)]), (3, [("a", 2)])] "f" =
        some [(3, [("a", 2)])]
    ∧ (tableSeeds [(3, [("a", 2)])]).count 3 ≤ 1 :=
  ⟨rfl, by decide,
    (C1_result_table_upsert (fun _ => none) "f" rfl).1
      [(3, [("a", 1)]), (3, [("a", 2)])] [(3, [("a", 2)])] 3 (by decide)⟩

/-- C2: saving a seed not yet present into an existing file writes the
`combine_first` merge (new single-row frame wins at every cell intersection,
gaps filled from the old table): the table gains exactly one row, the new row
holds exactly the saved record, and every other row is untouched. -/
theorem C2_merge_new_seed (fs : FileSys) (filename : String) (t : ResultTable)
    (seed : ℤ) (data : ResultRow) (hex : fs filename = some t)
    (hnew : seed ∉ tableSeeds t) (hnd : (tableSeeds t).Nodup) :
    (∀ s c, getCell (savedTable fs filename seed data) s c =
       (getCell [(seed, data)] s c).or (getCell t s c))
    ∧ (savedTable fs filename seed data).length = t.length + 1
    ∧ (∀ c, getCell (savedTable fs filename seed data) seed c = rowLookup data c)
    ∧ (∀ s c, s ≠ seed →
        getCell (savedTable fs filename seed data) s c = getCell t s c) := by
  have hor := fun s c => getCell_savedTable_exists fs filename t seed data hex s c
  refine ⟨hor, ?_, ?_, ?_⟩
  · have h1 : savedTable fs filename seed data = combine_first [(seed, data)] t := by
      simp only [savedTable, hex]
    have hcons : (seed :: tableSeeds t).Nodup := List.nodup_cons.mpr ⟨hnew, hnd⟩
    rw [h1, combine_first, List.length_map, indexUnion]
    rw [(List.perm_insertionSort (· ≤ ·) _).length_eq]
    have hsingl : tableSeeds [(seed, data)] ++ tableSeeds t = seed :: tableSeeds t := rfl
    rw [hsingl, List.dedup_eq_self.mpr hcons]
    simp [tableSeeds]
  · intro c
    rw [hor seed c, getCell_singleton_self,
      getCell_eq_none_of_not_mem_seeds t seed c hnew]
    cases rowLookup data c <;> rfl
  · intro s c hne
    rw [hor s c, getCell_singleton_ne _ _ _ _ hne]
    rfl

theorem C2_merge_new_seed_witness :
    (save_test_results (fun _ => none) "f" 1 [("a", 1)]) "f" = some [(1, [("a", 1)])]
    ∧ savedTable (save_test_results (fun _ => none) "f" 1 [("a", 1)]) "f" 2 [("b", 2)] =
        [(1, [("a", 1)]), (2, [("b", 2)])]
    ∧ (savedTable (save_test_results (fun _ => none) "f" 1 [("a", 1)]) "f" 2
        [("b", 2)]).length = ([(1, [("a", 1)])] : ResultTable).length + 1
    ∧ getCell (savedTable (save_test_results (fun _ => none) "f" 1 [("a", 1)]) "f" 2
        [("b", 2)]) 2 "b" = rowLookup [("b", 2)] "b"
    ∧ getCell (savedTable (save_test_results (fun _ => none) "f" 1 [("a", 1)]) "f" 2
        [("b", 2)]) 1 "b" = none
    ∧ getCell (savedTable (save_test_results (fun _ => none) "f" 1 [("a", 1)]) "f" 2
        [("b", 2)]) 1 "a" = getCell [(1, [("a", 1)])] 1 "a" :=
  ⟨by decide, by decide, by decide,
    (C2_merge_new_seed (save_test_results (fun _ => none) "f" 1 [("a", 1)]) "f"
      [(1, [("a", 1)])] 2 [("b", 2)] (by decide) (by decide) (by decide)).2.2.1 "b",
    by decide,
    (C2_merge_new_seed (save_test_results (fun _ => none) "f" 1 [("a", 1)]) "f"
      [(1, [("a", 1)])] 2 [("b", 2)] (by decide) (by decide) (by decide)).2.2.2 1 "a"
      (by decide)⟩

/- ### Part 2: the advisory file lock (`lock_method`, `threadsafe_save_test_results`) -/

/-- Observable events of one `lock_and_run_method` call.  `tryLock ok` is one
`fcntl.lockf(fp, LOCK_EX | LOCK_NB)` attempt (`ok = false` models the
`IOError` raised while another process holds the lock); `runSave` is the call
of the wrapped function; `releaseLock` would be an explicit unlock, an event
the code can emit nowhere. -/
inductive LockEvent where
  | openLock : LockEvent
  | tryLock : Bool → LockEvent
  | runSave : LockEvent
  | releaseLock : LockEvent
deriving DecidableEq

/-- Python exceptions observable in this model. -/
inductive PyError where
  | fileNotFoundError : PyError
  | spinning : PyError
deriving DecidableEq

/-- The busy-wait loop `while not done: try lockf ... except IOError: pass`.
`outcomes i` tells whether the `i`-th non-blocking attempt acquires the lock
(an environment fact: whether some other process still holds it).  The loop
has no bound in the source; `fuel` bounds the unrolling in the model and
`false` in the second component reports that the lock was still not acquired
after `fuel` attempts (the real loop would simply keep spinning). -/
def spinAcquire (outcomes : ℕ → Bool) : ℕ → ℕ → List LockEvent × Bool
  | 0, _ => ([], false)
  | fuel + 1, i =>
    if outcomes i then ([LockEvent.tryLock true], true)
    else (LockEvent.tryLock false :: (spinAcquire outcomes fuel (i + 1)).1,
      (spinAcquire outcomes fuel (i + 1)).2)

/-- `lock_and_run_method` (the function produced by the `lock_method`
decorator): `open(lock_filename, 'r+')` — which raises `FileNotFoundError`
when the lock file does not exist — then the busy-wait acquisition loop, then
the wrapped function, with no unlock anywhere.  Returns the event trace, the
resulting filesystem and the raised exception, if any. -/
def lock_and_run_method (outcomes : ℕ → Bool) (fuel : ℕ)
    (lock_filename : String) (fs : FileSys) (body : FileSys → FileSys) :
    List LockEvent × FileSys × Option PyError :=
  if (fs lock_filename).isSome then
    if (spinAcquire outcomes fuel 0).2 then
      (LockEvent.openLock :: (spinAcquire outcomes fuel 0).1 ++ [LockEvent.runSave],
        body fs, none)
    else (LockEvent.openLock :: (spinAcquire outcomes fuel 0).1, fs, some PyError.spinning)
  else ([], fs, some PyError.fileNotFoundError)

/-- `threadsafe_save_test_results(lock_filename, filename, seed, data)`:
`save_test_results` wrapped by the lock gate via `threadsafe_fn`. -/
def threadsafe_save_test_results (outcomes : ℕ → Bool) (fuel : ℕ)
    (lock_filename filename : String) (seed : ℤ) (data : ResultRow)
    (fs : FileSys) : List LockEvent × FileSys × Option PyError :=
  lock_and_run_method outcomes fuel lock_filename fs
    (fun fs0 => save_test_results fs0 filename seed data)

/-- When the first successful attempt is attempt `k < fuel`, the spin loop
emits exactly `k` failed attempts followed by the successful one. -/
theorem spinAcquire_first_success (outcomes : ℕ → Bool) :
    ∀ (k fuel i : ℕ), k < fuel → outcomes (i + k) = true →
      (∀ j, j < k → outcomes (i + j) = false) →
      spinAcquire outcomes fuel i =
        (List.replicate k (LockEvent.tryLock false) ++ [LockEvent.tryLock true], true) := by
  intro k
  induction k with
  | zero =>
    intro fuel i hk hs _
    rcases fuel with _ | fuel
    · cases hk
    · rw [spinAcquire]
      simp at hs
      rw [if_pos hs]
      rfl
  | succ k ih =>
    intro fuel i hk hs hf
    rcases fuel with _ | fuel
    · cases hk
    · rw [spinAcquire]
      have h0 : outcomes i = false := by
        have := hf 0 (Nat.succ_pos k)
        simpa using this
      rw [if_neg (by simp [h0])]
      have hrec := ih fuel (i + 1) (Nat.lt_of_succ_lt_succ hk)
        (by rw [Nat.add_right_comm]; exact hs)
        (fun j hj => by
          rw [Nat.add_right_comm]
          exact hf (j + 1) (Nat.succ_lt_succ hj))
      rw [hrec]
      simp [List.replicate_succ]

/-- C7: a `threadsafe_save_test_results` call on an existing lock file whose
`(k+1)`-st non-blocking attempt is the first to succeed produces the trace
open, `k` failed exclusive-lock attempts, one successful attempt, then the
save — the save body runs exactly once, only after acquisition, and no
execution path of the call (success, file-not-found, or still spinning) ever
emits an explicit lock release. -/
theorem C7_lock_acquire_save_no_release (outcomes : ℕ → Bool) (fuel k : ℕ)
    (lock_filename filename : String) (seed : ℤ) (data : ResultRow)
    (fs : FileSys) (hlock : (fs lock_filename).isSome) (hk : k < fuel)
    (hs : outcomes k = true) (hf : ∀ j, j < k → outcomes j = false) :
    ((threadsafe_save_test_results outcomes fuel lock_filename filename seed
        data fs).1 =
      LockEvent.openLock :: (List.replicate k (LockEvent.tryLock false) ++
        [LockEvent.tryLock true, LockEvent.runSave]))
    ∧ ((threadsafe_save_test_results outcomes fuel lock_filename filename seed
        data fs).1.count LockEvent.runSave = 1)
    ∧ ((threadsafe_save_test_results outcomes fuel lock_filename filename seed
        data fs).2 =
        (save_test_results fs filename seed data, none))
    ∧ (∀ (outcomes1 : ℕ → Bool) (fuel1 : ℕ) (fs1 : FileSys),
        LockEvent.releaseLock ∉
          (threadsafe_save_test_results outcomes1 fuel1 lock_filename filename
            seed data fs1).1) := by
  have hspin := spinAcquire_first_success outcomes k fuel 0 hk (by simpa using hs)
    (fun j hj => by simpa using hf j hj)
  have htrace : threadsafe_save_test_results outcomes fuel lock_filename
      filename seed data fs =
      (LockEvent.openLock :: (List.replicate k (LockEvent.tryLock false) ++
          [LockEvent.tryLock true]) ++ [LockEvent.runSave],
        save_test_results fs filename seed data, none) := by
    rw [threadsafe_save_test_results, lock_and_run_method, if_pos hlock, hspin]
    rfl
  refine ⟨?_, ?_, ?_, ?_⟩
  · rw [htrace]
    simp
  · rw [htrace]
    simp [List.count_cons, List.count_append, List.count_replicate]
  · rw [htrace]
  · intro outcomes1 fuel1 fs1
    rw [threadsafe_save_test_results, lock_and_run_method]
    by_cases h1 : (fs1 lock_filename).isSome
    · rw [if_pos h1]
      have hsp : ∀ fuel2 i, LockEvent.releaseLock ∉ (spinAcquire outcomes1 fuel2 i).1 := by
        intro fuel2
        induction fuel2 with
        | zero => intro i; simp [spinAcquire]
        | succ n ihn =>
          intro i
          rw [spinAcquire]
          by_cases ho : outcomes1 i = true
          · rw [if_pos ho]
            simp
          · rw [if_neg ho]
            intro hmem
            rcases List.mem_cons.mp hmem with h | h
            · cases h
            · exact ihn (i + 1) h
      by_cases h2 : (spinAcquire outcomes1 fuel1 0).2 = true
      · rw [if_pos h2]
        intro hmem
        rcases List.mem_cons.mp hmem with h | h
        · cases h
        · rcases List.mem_append.mp h with h3 | h3
          · exact hsp fuel1 0 h3
          · simp at h3
      · rw [if_neg h2]
        intro hmem
        rcases List.mem_cons.mp hmem with h | h
        · cases h
        · exact hsp fuel1 0 h
    · rw [if_neg h1]
      simp

theorem C7_lock_acquire_save_no_release_witness :
    ((fun fn => if fn = "results.lock" then some [] else none : FileSys)
        "results.lock").isSome = true
    ∧ ((fun i => i == 2 : ℕ → Bool) 2 = true)
    ∧ ((threadsafe_save_test_results (fun i => i == 2) 5 "results.lock" "f" 0
          [("a", 1)] (fun fn => if fn = "results.lock" then some [] else none)).1 =
        LockEvent.openLock :: (List.replicate 2 (LockEvent.tryLock false) ++
          [LockEvent.tryLock true, LockEvent.runSave])) :=
  ⟨by decide, by decide,
    (C7_lock_acquire_save_no_release (fun i => i == 2) 5 2 "results.lock" "f" 0
      [("a", 1)] (fun fn => if fn = "results.lock" then some [] else none)
      (by decide) (by decide) (by decide) (fun j hj => by
        interval_cases j <;> rfl)).1⟩

/-- C10: when the lock file does not exist, `threadsafe_save_test_results`
raises `FileNotFoundError` from `open(lock_filename, 'r+')` before the save
body runs: no save event is emitted and the filesystem — in particular the
result file — is unchanged. -/
theorem C10_missing_lock_file_aborts (outcomes : ℕ → Bool) (fuel : ℕ)
    (lock_filename filename : String) (seed : ℤ) (data : ResultRow)
    (fs : FileSys) (hmiss : fs lock_filename = none) :
    (threadsafe_save_test_results outcomes fuel lock_filename filename seed
        data fs) = ([], fs, some PyError.fileNotFoundError)
    ∧ LockEvent.runSave ∉
        (threadsafe_save_test_results outcomes fuel lock_filename filename seed
          data fs).1
    ∧ (threadsafe_save_test_results outcomes fuel lock_filename filename seed
        data fs).2.1 filename = fs filename := by
  have h : threadsafe_save_test_results outcomes fuel lock_filename filename
      seed data fs = ([], fs, some PyError.fileNotFoundError) := by
    rw [threadsafe_save_test_results, lock_and_run_method,
      if_neg (by simp [hmiss])]
  refine ⟨h, ?_, ?_⟩
  · rw [h]
    simp
  · rw [h]

theorem C10_missing_lock_file_aborts_witness :
    ((fun _ => none : FileSys) "ghost.lock" = none)
    ∧ (threadsafe_save_test_results (fun _ => true) 3 "ghost.lock" "f" 0
        [("a", 1)] (fun _ => none)) = ([], (fun _ => none), some PyError.fileNotFoundError) :=
  ⟨rfl,
    (C10_missing_lock_file_aborts (fun _ => true) 3 "ghost.lock" "f" 0
      [("a", 1)] (fun _ => none) rfl).1⟩

/- ### Part 3: the node-classification evaluator (`evaluate_node_classification`) -/

/-- A `numpy` label array: 1-D (single-label, one class index per node) or
2-D (multi-label, one indicator row per node).  The constructor records the
dimensionality that `labels.shape` exposes. -/
inductive NPLabels (β : Type) where
  | oneD : List β → NPLabels β
  | twoD : List (List β) → NPLabels β

/-- `len(labels.shape)`. -/
def NPLabels.ndim {β : Type} : NPLabels β → ℕ
  | .oneD _ => 1
  | .twoD _ => 2

/-- Fancy row indexing `arr[idx]` on the embedding matrix.  All indices the
evaluator uses come from a splitter and are in range; out-of-range indices
(an `IndexError` in `numpy`) are dropped. -/
def selectIdx {α : Type} (X : List α) (idx : List ℕ) : List α :=
  idx.filterMap (fun i => X.get? i)

/-- Fancy row indexing `labels[idx]`. -/
def NPLabels.select {β : Type} : NPLabels β → List ℕ → NPLabels β
  | .oneD l, idx => .oneD (idx.filterMap (fun i => l.get? i))
  | .twoD l, idx => .twoD (idx.filterMap (fun i => l.get? i))

/-- The scikit-learn primitives used by `evaluate_node_classification`,
which live outside this repository, as an oracle record.

* `StratifiedShuffleSplit`/`ShuffleSplit` take `n_splits`, `test_size`,
  `random_state`, the data, and `numpy`'s global generator state `ρ` (consumed
  only when `random_state=None`), and return the list of
  `(train_indices, test_indices)` splits plus the new generator state.
* `logisticRegressionCV` is `LogisticRegressionCV().fit(X_train, y_train)`
  followed by `.predict(X_test)`.  With its default arguments (lbfgs solver,
  unshuffled stratified CV) the estimator is deterministic, hence a pure
  function of the three arrays; `fit` resets all learned state, so reusing
  one model object across loop iterations is equivalent to a fresh fit.
* `oneVsRestLogisticRegressionCV` is the same for
  `OneVsRestClassifier(LogisticRegressionCV())`.
* `f1_score` takes `y_true`, `y_pred` and the `average` string. -/
structure SklearnEnv (α β ρ : Type) where
  StratifiedShuffleSplit :
    ℕ → ℚ → Option ℕ → List α → NPLabels β → ρ → List (List ℕ × List ℕ) × ρ
  ShuffleSplit :
    ℕ → ℚ → Option ℕ → List α → NPLabels β → ρ → List (List ℕ × List ℕ) × ρ
  logisticRegressionCV : List α → NPLabels β → List α → NPLabels β
  oneVsRestLogisticRegressionCV : List α → NPLabels β → List α → NPLabels β
  f1_score : NPLabels β → NPLabels β → String → ℚ

/-- The split strategy the evaluator selects: `split = StratifiedShuffleSplit`
replaced by `ShuffleSplit` when `len(labels.shape) > 1`. -/
def chosenSplit {α β ρ : Type} (env : SklearnEnv α β ρ) (labels : NPLabels β) :
    ℕ → ℚ → Option ℕ → List α → NPLabels β → ρ → List (List ℕ × List ℕ) × ρ :=
  if 1 < labels.ndim then env.ShuffleSplit else env.StratifiedShuffleSplit

/-- The classifier the evaluator selects: `model = LogisticRegressionCV()`
wrapped in `OneVsRestClassifier` when `len(labels.shape) > 1`. -/
def chosenModel {α β ρ : Type} (env : SklearnEnv α β ρ) (labels : NPLabels β) :
    List α → NPLabels β → List α → NPLabels β :=
  if 1 < labels.ndim then env.oneVsRestLogisticRegressionCV
  else env.logisticRegressionCV

/-- The `average="micro"` argument of `f1_score`. -/
def microAverage : String := "micro"

/-- The `average="macro"` argument of `f1_score`. -/
def macroAverage : String := "macro"

/-- One inner-loop iteration: draw the single split (`n_splits=1`,
`test_size = 1 - label_percentage`, `random_state = seed`), fit on the train
partition, predict on the test partition, and score micro- and macro-F1 of
those predictions against the held-out labels. -/
def evalCell {α β ρ : Type} (env : SklearnEnv α β ρ) (X : List α)
    (labels : NPLabels β) (seed : ℕ) (p : ℚ) (g : ρ) : (ℚ × ℚ) × ρ :=
  let s := chosenSplit env labels 1 (1 - p) (some seed) X labels g
  let tt := s.1.headD ([], [])
  let preds := chosenModel env labels (selectIdx X tt.1) (labels.select tt.1)
    (selectIdx X tt.2)
  ((env.f1_score (labels.select tt.2) preds microAverage,
    env.f1_score (labels.select tt.2) preds macroAverage), s.2)

/-- The inner loop over `label_percentages` for one repeat, threading the
global generator state. -/
def evalRow {α β ρ : Type} (env : SklearnEnv α β ρ) (X : List α)
    (labels : NPLabels β) (seed : ℕ) : List ℚ → ρ → List (ℚ × ℚ) × ρ
  | [], g => ([], g)
  | p :: ps, g =>
    ((evalCell env X labels seed p g).1 ::
        (evalRow env X labels seed ps (evalCell env X labels seed p g).2).1,
      (evalRow env X labels seed ps (evalCell env X labels seed p g).2).2)

/-- The outer loop over repeat indices (each used as the split seed). -/
def evalMat {α β ρ : Type} (env : SklearnEnv α β ρ) (X : List α)
    (labels : NPLabels β) : List ℕ → List ℚ → ρ → List (List (ℚ × ℚ)) × ρ
  | [], _, g => ([], g)
  | s :: ss, ps, g =>
    ((evalRow env X labels s ps g).1 ::
        (evalMat env X labels ss ps (evalRow env X labels s ps g).2).1,
      (evalMat env X labels ss ps (evalRow env X labels s ps g).2).2)

/-- The `f1_micros` matrix (shape `n_repeats × len(label_percentages)`). -/
def f1Micros {α β ρ : Type} (env : SklearnEnv α β ρ) (X : List α)
    (labels : NPLabels β) (pcts : List ℚ) (n : ℕ) (g : ρ) : List (List ℚ) :=
  ((evalMat env X labels (List.range n) pcts g).1).map (fun row => row.map Prod.fst)

/-- The `f1_macros` matrix. -/
def f1Macros {α β ρ : Type} (env : SklearnEnv α β ρ) (X : List α)
    (labels : NPLabels β) (pcts : List ℚ) (n : ℕ) (g : ρ) : List (List ℚ) :=
  ((evalMat env X labels (List.range n) pcts g).1).map (fun row => row.map Prod.snd)

/-- `matrix.mean(axis=0)`: column-wise mean over the rows, one value per
column of the allocated `n_repeats × len(label_percentages)` matrix. -/
def colMeans (m : List (List ℚ)) (w : ℕ) : List ℚ :=
  (List.range w).map (fun i => (m.map (fun row => row.getD i 0)).sum / (m.length : ℚ))

/-- `evaluate_node_classification`: run the two nested loops and return the
percentage list together with the column-wise means of the two F1 matrices,
plus the final generator state. -/
def evaluate_node_classification {α β ρ : Type} (env : SklearnEnv α β ρ)
    (X : List α) (labels : NPLabels β) (label_percentages : List ℚ)
    (n_repeats : ℕ) (g : ρ) : (List ℚ × List ℚ × List ℚ) × ρ :=
  ((label_percentages,
    colMeans (f1Micros env X labels label_percentages n_repeats g)
      label_percentages.length,
    colMeans (f1Macros env X labels label_percentages n_repeats g)
      label_percentages.length),
   (evalMat env X labels (List.range n_repeats) label_percentages g).2)

/-- The global generator state reached just before the inner-loop iteration
at repeat `seed`, percentage index `i`. -/
def stateBeforeCell {α β ρ : Type} (env : SklearnEnv α β ρ) (X : List α)
    (labels : NPLabels β) (pcts : List ℚ) (n : ℕ) (g : ρ) (seed i : ℕ) : ρ :=
  (evalRow env X labels seed (pcts.take i)
    (evalMat env X labels ((List.range n).take seed) pcts g).2).2

theorem evalRow_length {α β ρ : Type} (env : SklearnEnv α β ρ) (X : List α)
    (labels : NPLabels β) (seed : ℕ) :
    ∀ (ps : List ℚ) (g : ρ), (evalRow env X labels seed ps g).1.length = ps.length := by
  intro ps
  induction ps with
  | nil => intro g; rfl
  | cons p ps ih =>
    intro g
    simp only [evalRow, List.length_cons, ih]

theorem evalMat_length {α β ρ : Type} (env : SklearnEnv α β ρ) (X : List α)
    (labels : NPLabels β) :
    ∀ (ss : List ℕ) (ps : List ℚ) (g : ρ),
      (evalMat env X labels ss ps g).1.length = ss.length := by
  intro ss
  induction ss with
  | nil => intro ps g; rfl
  | cons s ss ih =>
    intro ps g
    simp only [evalMat, List.length_cons, ih]

theorem evalRow_getElem? {α β ρ : Type} (env : SklearnEnv α β ρ) (X : List α)
    (labels : NPLabels β) (seed : ℕ) :
    ∀ (ps : List ℚ) (g : ρ) (i : ℕ), i < ps.length →
      (evalRow env X labels seed ps g).1[i]? =
        some (evalCell env X labels seed (ps.getD i 0)
          (evalRow env X labels seed (ps.take i) g).2).1 := by
  intro ps
  induction ps with
  | nil => intro g i h; cases h
  | cons p ps ih =>
    intro g i h
    cases i with
    | zero => simp [evalRow]
    | succ i =>
      have hrec := ih (evalCell env X labels seed p g).2 i
        (Nat.lt_of_succ_lt_succ h)
      simp only [evalRow, List.getElem?_cons_succ, List.getD_cons_succ,
        List.take_succ_cons]
      exact hrec

theorem evalMat_getElem? {α β ρ : Type} (env : SklearnEnv α β ρ) (X : List α)
    (labels : NPLabels β) :
    ∀ (ss : List ℕ) (ps : List ℚ) (g : ρ) (j : ℕ), j < ss.length →
      (evalMat env X labels ss ps g).1[j]? =
        some (evalRow env X labels (ss.getD j 0) ps
          (evalMat env X labels (ss.take j) ps g).2).1 := by
  intro ss
  induction ss with
  | nil => intro ps g j h; cases h
  | cons s ss ih =>
    intro ps g j h
    cases j with
    | zero => simp [evalMat]
    | succ j =>
      have hrec := ih ps (evalRow env X labels s ps g).2 j
        (Nat.lt_of_succ_lt_succ h)
      simp only [evalMat, List.getElem?_cons_succ, List.getD_cons_succ,
        List.take_succ_cons]
      exact hrec

/-- The single train/test split drawn for the inner-loop iteration at repeat
`seed` and percentage index `i`: the selected splitter is constructed with
`n_splits = 1`, `test_size = 1 - label_percentage` and `random_state = seed`
(the repeat index), and the one split it yields is taken. -/
def cellSplit {α β ρ : Type} (env : SklearnEnv α β ρ) (X : List α)
    (labels : NPLabels β) (pcts : List ℚ) (n : ℕ) (g : ρ) (seed i : ℕ) :
    List ℕ × List ℕ :=
  (chosenSplit env labels 1 (1 - pcts.getD i 0) (some seed) X labels
    (stateBeforeCell env X labels pcts n g seed i)).1.headD ([], [])

/-- The predictions of that iteration: the selected classifier is fitted on
the train partition and applied to the held-out test partition. -/
def cellPreds {α β ρ : Type} (env : SklearnEnv α β ρ) (X : List α)
    (labels : NPLabels β) (pcts : List ℚ) (n : ℕ) (g : ρ) (seed i : ℕ) :
    NPLabels β :=
  chosenModel env labels
    (selectIdx X (cellSplit env X labels pcts n g seed i).1)
    (labels.select (cellSplit env X labels pcts n g seed i).1)
    (selectIdx X (cellSplit env X labels pcts n g seed i).2)

/-- C3: for every repeat index `seed < n` and percentage index `i`, the
evaluator draws exactly one split (the selected splitter is constructed with
`n_splits = 1`, `test_size = 1 - p`, `random_state = seed`), fits the
classifier on the train partition, predicts on the held-out partition, and
records the micro and macro F1 of those predictions at position `(seed, i)`
of the two score matrices. -/
theorem C3_cell_split_fit_predict_score {α β ρ : Type} (env : SklearnEnv α β ρ)
    (X : List α) (labels : NPLabels β) (pcts : List ℚ) (n : ℕ) (g : ρ)
    (seed i : ℕ) (hseed : seed < n) (hi : i < pcts.length) :
    ((f1Micros env X labels pcts n g).getD seed [])[i]? =
      some (env.f1_score
        (labels.select (cellSplit env X labels pcts n g seed i).2)
        (cellPreds env X labels pcts n g seed i) microAverage)
    ∧ ((f1Macros env X labels pcts n g).getD seed [])[i]? =
      some (env.f1_score
        (labels.select (cellSplit env X labels pcts n g seed i).2)
        (cellPreds env X labels pcts n g seed i) macroAverage) := by
  have hmat := evalMat_getElem? env X labels (List.range n) pcts g seed
    (by simpa using hseed)
  have hrange : (List.range n).getD seed 0 = seed := by
    rw [List.getD_eq_getElem?_getD, List.getElem?_range hseed]
    rfl
  rw [hrange] at hmat
  have hrow := evalRow_getElem? env X labels seed pcts
    ((evalMat env X labels ((List.range n).take seed) pcts g).2) i hi
  constructor
  · have hgetD : (f1Micros env X labels pcts n g).getD seed [] =
        ((evalRow env X labels seed pcts
          ((evalMat env X labels ((List.range n).take seed) pcts g).2)).1).map
          Prod.fst := by
      rw [f1Micros, List.getD_eq_getElem?_getD, List.getElem?_map, hmat]
      rfl
    rw [hgetD, List.getElem?_map, hrow]
    rfl
  · have hgetD : (f1Macros env X labels pcts n g).getD seed [] =
        ((evalRow env X labels seed pcts
          ((evalMat env X labels ((List.range n).take seed) pcts g).2)).1).map
          Prod.snd := by
      rw [f1Macros, List.getD_eq_getElem?_getD, List.getElem?_map, hmat]
      rfl
    rw [hgetD, List.getElem?_map, hrow]
    rfl

/-- A concrete oracle instance used to exercise the evaluator theorems on
closed inputs: the splitters always yield train `[0]`, test `[1]` and leave
the generator state unchanged, the classifiers echo the test embedding, and
`f1_score` always returns `1/2`. -/
def testEnv : SklearnEnv ℚ ℚ ℕ where
  StratifiedShuffleSplit := fun _ _ _ _ _ g => ([([0], [1])], g)
  ShuffleSplit := fun _ _ _ _ _ g => ([([0], [1])], g)
  logisticRegressionCV := fun _ _ Xt => NPLabels.oneD Xt
  oneVsRestLogisticRegressionCV := fun _ _ Xt => NPLabels.oneD Xt
  f1_score := fun _ _ _ => 1 / 2

theorem C3_cell_split_fit_predict_score_witness :
    (0 : ℕ) < 1 ∧ (0 : ℕ) < ([(1 : ℚ)/10] : List ℚ).length ∧
    ((f1Micros testEnv [0, 1] (NPLabels.oneD [0, 1]) [1/10] 1 0).getD 0 [])[0]? =
      some (1 / 2) := by
  have h := C3_cell_split_fit_predict_score testEnv [0, 1] (NPLabels.oneD [0, 1])
    [1/10] 1 0 0 0 (by decide) (by decide)
  refine ⟨by decide, by decide, ?_⟩
  rw [h.1]
  rfl

/-- C4: the evaluator selects its strategy from the label dimensionality:
with a multi-dimensional (multi-label) array the base classifier is wrapped
one-vs-rest and the plain (non-stratified) shuffle split is used; otherwise
the bare classifier runs with the stratified shuffle split.  2-D labels are
exactly the multi-dimensional case, 1-D labels are not. -/
theorem C4_mode_selection {α β ρ : Type} (env : SklearnEnv α β ρ)
    (labels : NPLabels β) :
    (1 < labels.ndim →
      chosenSplit env labels = env.ShuffleSplit ∧
      chosenModel env labels = env.oneVsRestLogisticRegressionCV)
    ∧ (¬ 1 < labels.ndim →
      chosenSplit env labels = env.StratifiedShuffleSplit ∧
      chosenModel env labels = env.logisticRegressionCV)
    ∧ (∀ l2 : List (List β), 1 < (NPLabels.twoD l2).ndim)
    ∧ (∀ l1 : List β, ¬ 1 < (NPLabels.oneD l1).ndim) := by
  refine ⟨?_, ?_, ?_, ?_⟩
  · intro h
    exact ⟨by rw [chosenSplit, if_pos h], by rw [chosenModel, if_pos h]⟩
  · intro h
    exact ⟨by rw [chosenSplit, if_neg h], by rw [chosenModel, if_neg h]⟩
  · intro l2
    exact one_lt_two
  · intro l1
    simp [NPLabels.ndim]

theorem C4_mode_selection_witness :
    (1 < (NPLabels.twoD [[(0 : ℚ)], [1]]).ndim →
      chosenSplit testEnv (NPLabels.twoD [[(0 : ℚ)], [1]]) = testEnv.ShuffleSplit ∧
      chosenModel testEnv (NPLabels.twoD [[(0 : ℚ)], [1]]) =
        testEnv.oneVsRestLogisticRegressionCV)
    ∧ (1 < (NPLabels.twoD [[(0 : ℚ)], [1]]).ndim)
    ∧ (chosenSplit testEnv (NPLabels.oneD [(0 : ℚ), 1]) =
        testEnv.StratifiedShuffleSplit) :=
  ⟨(C4_mode_selection testEnv (NPLabels.twoD [[(0 : ℚ)], [1]])).1,
    one_lt_two,
    ((C4_mode_selection testEnv (NPLabels.oneD [(0 : ℚ), 1])).2.1 (by decide)).1⟩

/-- Every score in a row of the loop output is an `f1_score` value, hence
bounded whenever the metric is. -/
theorem evalRow_bounds {α β ρ : Type} (env : SklearnEnv α β ρ) (X : List α)
    (labels : NPLabels β) (seed : ℕ)
    (hf : ∀ yt yp avg, 0 ≤ env.f1_score yt yp avg ∧ env.f1_score yt yp avg ≤ 1) :
    ∀ (ps : List ℚ) (g : ρ) (c : ℚ × ℚ), c ∈ (evalRow env X labels seed ps g).1 →
      (0 ≤ c.1 ∧ c.1 ≤ 1) ∧ (0 ≤ c.2 ∧ c.2 ≤ 1) := by
  intro ps
  induction ps with
  | nil => intro g c hc; cases hc
  | cons p ps ih =>
    intro g c hc
    rcases List.mem_cons.mp hc with h | h
    · subst h
      exact ⟨hf _ _ _, hf _ _ _⟩
    · exact ih _ c h

theorem evalMat_bounds {α β ρ : Type} (env : SklearnEnv α β ρ) (X : List α)
    (labels : NPLabels β)
    (hf : ∀ yt yp avg, 0 ≤ env.f1_score yt yp avg ∧ env.f1_score yt yp avg ≤ 1) :
    ∀ (ss : List ℕ) (ps : List ℚ) (g : ρ) (row : List (ℚ × ℚ)),
      row ∈ (evalMat env X labels ss ps g).1 →
      ∀ c ∈ row, (0 ≤ c.1 ∧ c.1 ≤ 1) ∧ (0 ≤ c.2 ∧ c.2 ≤ 1) := by
  intro ss
  induction ss with
  | nil => intro ps g row hrow; cases hrow
  | cons s ss ih =>
    intro ps g row hrow
    rcases List.mem_cons.mp hrow with h | h
    · subst h
      intro c hc
      exact evalRow_bounds env X labels s hf ps g c hc
    · exact ih ps _ row h

/-- Entries of a column-wise mean of a matrix with entries in `[0, 1]` and at
least one row stay in `[0, 1]`. -/
theorem colMeans_bounds (m : List (List ℚ)) (w : ℕ) (hne : 0 < m.length)
    (hb : ∀ row ∈ m, ∀ x ∈ row, 0 ≤ x ∧ x ≤ 1) :
    ∀ x ∈ colMeans m w, 0 ≤ x ∧ x ≤ 1 := by
  intro x hx
  rw [colMeans, List.mem_map] at hx
  rcases hx with ⟨i, _, rfl⟩
  have hcb : ∀ y ∈ m.map (fun row => row.getD i 0), 0 ≤ y ∧ y ≤ 1 := by
    intro y hy
    rcases List.mem_map.mp hy with ⟨row, hrow, rfl⟩
    rcases he : row[i]? with _ | v
    · rw [List.getD_eq_getElem?_getD, he]
      norm_num
    · rw [List.getD_eq_getElem?_getD, he]
      exact hb row hrow v (List.getElem?_mem he)
  have hlen : (0 : ℚ) < (m.length : ℚ) := by exact_mod_cast hne
  constructor
  · exact div_nonneg (List.sum_nonneg (fun y hy => (hcb y hy).1)) (le_of_lt hlen)
  · rw [div_le_one hlen]
    calc (m.map (fun row => row.getD i 0)).sum
        ≤ (m.map (fun row => row.getD i 0)).length • (1 : ℚ) :=
          List.sum_le_card_nsmul _ 1 (fun y hy => (hcb y hy).2)
      _ = ((m.map (fun row => row.getD i 0)).length : ℚ) := by
          rw [nsmul_eq_mul, mul_one]
      _ = (m.length : ℚ) := by rw [List.length_map]

theorem f1Micros_length {α β ρ : Type} (env : SklearnEnv α β ρ) (X : List α)
    (labels : NPLabels β) (pcts : List ℚ) (n : ℕ) (g : ρ) :
    (f1Micros env X labels pcts n g).length = n := by
  rw [f1Micros, List.length_map, evalMat_length, List.length_range]

theorem f1Macros_length {α β ρ : Type} (env : SklearnEnv α β ρ) (X : List α)
    (labels : NPLabels β) (pcts : List ℚ) (n : ℕ) (g : ρ) :
    (f1Macros env X labels pcts n g).length = n := by
  rw [f1Macros, List.length_map, evalMat_length, List.length_range]

theorem f1Micros_bounds {α β ρ : Type} (env : SklearnEnv α β ρ) (X : List α)
    (labels : NPLabels β) (pcts : List ℚ) (n : ℕ) (g : ρ)
    (hf : ∀ yt yp avg, 0 ≤ env.f1_score yt yp avg ∧ env.f1_score yt yp avg ≤ 1) :
    ∀ row ∈ f1Micros env X labels pcts n g, ∀ x ∈ row, 0 ≤ x ∧ x ≤ 1 := by
  intro row hrow x hx
  rcases List.mem_map.mp hrow with ⟨crow, hcrow, rfl⟩
  rcases List.mem_map.mp hx with ⟨c, hc, rfl⟩
  exact (evalMat_bounds env X labels hf (List.range n) pcts g crow hcrow c hc).1

theorem f1Macros_bounds {α β ρ : Type} (env : SklearnEnv α β ρ) (X : List α)
    (labels : NPLabels β) (pcts : List ℚ) (n : ℕ) (g : ρ)
    (hf : ∀ yt yp avg, 0 ≤ env.f1_score yt yp avg ∧ env.f1_score yt yp avg ≤ 1) :
    ∀ row ∈ f1Macros env X labels pcts n g, ∀ x ∈ row, 0 ≤ x ∧ x ≤ 1 := by
  intro row hrow x hx
  rcases List.mem_map.mp hrow with ⟨crow, hcrow, rfl⟩
  rcases List.mem_map.mp hx with ⟨c, hc, rfl⟩
  exact (evalMat_bounds env X labels hf (List.range n) pcts g crow hcrow c hc).2

/-- C5: with percentages in `(0, 1)`, a bounded metric (every `f1_score`
value lies in `[0, 1]`, which holds whenever the underlying calls succeed)
and at least one repeat, the evaluator returns the percentage list unchanged
plus two arrays of length `len(label_percentages)` whose `i`-th entries are
the column-wise means over the `n` repeats of the per-repeat micro/macro F1
scores, and every returned value lies in `[0, 1]`. -/
theorem C5_shape_mean_bounds {α β ρ : Type} (env : SklearnEnv α β ρ)
    (X : List α) (labels : NPLabels β) (pcts : List ℚ) (n : ℕ) (g : ρ)
    (hp : ∀ p ∈ pcts, 0 < p ∧ p < 1)
    (hf : ∀ yt yp avg, 0 ≤ env.f1_score yt yp avg ∧ env.f1_score yt yp avg ≤ 1)
    (hn : 0 < n) :
    (evaluate_node_classification env X labels pcts n g).1.1 = pcts
    ∧ (evaluate_node_classification env X labels pcts n g).1.2.1.length =
        pcts.length
    ∧ (evaluate_node_classification env X labels pcts n g).1.2.2.length =
        pcts.length
    ∧ (∀ i, i < pcts.length →
        (evaluate_node_classification env X labels pcts n g).1.2.1[i]? =
          some (((f1Micros env X labels pcts n g).map
            (fun row => row.getD i 0)).sum / (n : ℚ)))
    ∧ (∀ i, i < pcts.length →
        (evaluate_node_classification env X labels pcts n g).1.2.2[i]? =
          some (((f1Macros env X labels pcts n g).map
            (fun row => row.getD i 0)).sum / (n : ℚ)))
    ∧ (∀ x ∈ (evaluate_node_classification env X labels pcts n g).1.2.1,
        0 ≤ x ∧ x ≤ 1)
    ∧ (∀ x ∈ (evaluate_node_classification env X labels pcts n g).1.2.2,
        0 ≤ x ∧ x ≤ 1) := by
  refine ⟨rfl, ?_, ?_, ?_, ?_, ?_, ?_⟩
  · simp [evaluate_node_classification, colMeans]
  · simp [evaluate_node_classification, colMeans]
  · intro i hi
    show (colMeans (f1Micros env X labels pcts n g) pcts.length)[i]? = _
    rw [colMeans, List.getElem?_map, List.getElem?_range hi]
    rw [f1Micros_length]
    rfl
  · intro i hi
    show (colMeans (f1Macros env X labels pcts n g) pcts.length)[i]? = _
    rw [colMeans, List.getElem?_map, List.getElem?_range hi]
    rw [f1Macros_length]
    rfl
  · intro x hx
    exact colMeans_bounds _ pcts.length
      (by rw [f1Micros_length]; exact hn)
      (f1Micros_bounds env X labels pcts n g hf) x hx
  · intro x hx
    exact colMeans_bounds _ pcts.length
      (by rw [f1Macros_length]; exact hn)
      (f1Macros_bounds env X labels pcts n g hf) x hx

theorem C5_shape_mean_bounds_witness :
    ((1 : ℚ)/10 ∈ ([(1 : ℚ)/10] : List ℚ) → 0 < (1 : ℚ)/10 ∧ (1 : ℚ)/10 < 1)
    ∧ (0 : ℕ) < 2
    ∧ (evaluate_node_classification testEnv [0, 1] (NPLabels.oneD [0, 1])
        [1/10] 2 0).1.1 = [1/10]
    ∧ (evaluate_node_classification testEnv [0, 1] (NPLabels.oneD [0, 1])
        [1/10] 2 0).1.2.1.length = 1 := by
  have h := C5_shape_mean_bounds testEnv [0, 1] (NPLabels.oneD [0, 1]) [1/10] 2 0
    (fun p hp => by
      rw [List.mem_singleton] at hp
      subst hp
      norm_num)
    (fun yt yp avg =>
      ⟨show (0 : ℚ) ≤ 1/2 by norm_num, show (1 : ℚ)/2 ≤ 1 by norm_num⟩)
    (by decide)
  refine ⟨fun _ => by norm_num, by decide, h.1, ?_⟩
  rw [h.2.1]
  rfl

/-- C6: two runs of the evaluator on the same embedding, labels, percentage
list and repeat count return identical outputs even when `numpy`'s hidden
global generator state differs between the calls, because every split is
drawn with `random_state = seed` (the repeat index) — formalised by the
hypothesis that an explicitly seeded splitter's output does not depend on
the global generator state, which is how scikit-learn documents
`random_state`. -/
theorem C6_run_to_run_determinism {α β ρ : Type} (env : SklearnEnv α β ρ)
    (X : List α) (labels : NPLabels β) (pcts : List ℚ) (n : ℕ) (g1 g2 : ρ)
    (hstrat : ∀ ns t s X0 y0 ga gb,
      (env.StratifiedShuffleSplit ns t (some s) X0 y0 ga).1 =
        (env.StratifiedShuffleSplit ns t (some s) X0 y0 gb).1)
    (hplain : ∀ ns t s X0 y0 ga gb,
      (env.ShuffleSplit ns t (some s) X0 y0 ga).1 =
        (env.ShuffleSplit ns t (some s) X0 y0 gb).1) :
    (evaluate_node_classification env X labels pcts n g1).1 =
      (evaluate_node_classification env X labels pcts n g2).1 := by
  have hchosen : ∀ ns t s X0 y0 ga gb,
      (chosenSplit env labels ns t (some s) X0 y0 ga).1 =
        (chosenSplit env labels ns t (some s) X0 y0 gb).1 := by
    intro ns t s X0 y0 ga gb
    simp only [chosenSplit]
    by_cases h : 1 < labels.ndim
    · rw [if_pos h]
      exact hplain ns t s X0 y0 ga gb
    · rw [if_neg h]
      exact hstrat ns t s X0 y0 ga gb
  have hcell : ∀ seed p ga gb,
      (evalCell env X labels seed p ga).1 = (evalCell env X labels seed p gb).1 := by
    intro seed p ga gb
    simp only [evalCell]
    rw [hchosen 1 (1 - p) seed X labels ga gb]
  have hrow : ∀ (ps : List ℚ) (seed : ℕ) (ga gb : ρ),
      (evalRow env X labels seed ps ga).1 = (evalRow env X labels seed ps gb).1 := by
    intro ps
    induction ps with
    | nil => intro seed ga gb; rfl
    | cons p ps ih =>
      intro seed ga gb
      simp only [evalRow]
      rw [hcell seed p ga gb,
        ih seed (evalCell env X labels seed p ga).2 (evalCell env X labels seed p gb).2]
  have hmat : ∀ (ss : List ℕ) (ps : List ℚ) (ga gb : ρ),
      (evalMat env X labels ss ps ga).1 = (evalMat env X labels ss ps gb).1 := by
    intro ss
    induction ss with
    | nil => intro ps ga gb; rfl
    | cons s ss ih =>
      intro ps ga gb
      simp only [evalMat]
      rw [hrow ps s ga gb,
        ih ps (evalRow env X labels s ps ga).2 (evalRow env X labels s ps gb).2]
  simp only [evaluate_node_classification, f1Micros, f1Macros]
  rw [hmat (List.range n) pcts g1 g2]

theorem C6_run_to_run_determinism_witness :
    (evaluate_node_classification testEnv [0, 1] (NPLabels.oneD [0, 1])
        [1/10, 2/10] 2 0).1 =
      (evaluate_node_classification testEnv [0, 1] (NPLabels.oneD [0, 1])
        [1/10, 2/10] 2 7).1 :=
  C6_run_to_run_determinism testEnv [0, 1] (NPLabels.oneD [0, 1]) [1/10, 2/10]
    2 0 7 (fun _ _ _ _ _ _ _ => rfl) (fun _ _ _ _ _ _ _ => rfl)

/- ### Part 4: the hyperbolic softmax loss (`heat/losses.py`) -/

/-- The transcendental Keras/TensorFlow primitives the loss calls, over an
abstract linearly ordered field (float arithmetic modelled exactly);
`epsilon` is `K.epsilon()` (`1e-7` under the default Keras configuration —
no claim depends on its value). -/
structure TFOps (R : Type) [LinearOrderedField R] where
  exp : R → R
  log : R → R
  acosh : R → R
  epsilon : R

/-- Dot product of two coordinate lists. -/
def dotR {R : Type} [LinearOrderedField R] (v w : List R) : R :=
  (List.zipWith (fun a b => a * b) v w).sum

/-- `x[..., :-1]`: every coordinate but the last. -/
def spatial {R : Type} (v : List R) : List R := v.dropLast

/-- `x[..., -1:]`: the last ("time") coordinate, as a slice. -/
def timeSlice {R : Type} (v : List R) : List R := v.drop (v.length - 1)

/-- `K.batch_dot(x, y, axes=(1, 2))` for `x : (B, d)` and `y : (B, K, d)`:
for each batch element, the vector of dot products of `x[b]` with each row
of `y[b]`. -/
def batch_dot_1_2 {R : Type} [LinearOrderedField R] (x : List (List R))
    (y : List (List (List R))) : List (List R) :=
  List.zipWith (fun xb yb => yb.map (fun yv => dotR xb yv)) x y

/-- `minkowski_dot(x, y)` at the shapes of its one call site (`x` the batch
of query embeddings, rank 2; `y` the batch of candidate matrices, rank 3; the
`axes` pair computed from the ranks is `(1, 2)`): the batched spatial inner
product minus the batched product of the time coordinates. -/
def minkowski_dot {R : Type} [LinearOrderedField R] (x : List (List R))
    (y : List (List (List R))) : List (List R) :=
  List.zipWith (List.zipWith (fun a b => a - b))
    (batch_dot_1_2 (x.map spatial) (y.map (fun m => m.map spatial)))
    (batch_dot_1_2 (x.map timeSlice) (y.map (fun m => m.map timeSlice)))

/-- `u_emb = y_pred[:, 0]`: the query embedding of each example. -/
def u_emb {R : Type} (y_pred : List (List (List R))) : List (List R) :=
  y_pred.map (fun row => row.getD 0 [])

/-- `samples_emb = y_pred[:, 1:]`: the candidate embeddings of each example. -/
def samples_emb {R : Type} (y_pred : List (List (List R))) :
    List (List (List R)) :=
  y_pred.map (fun row => row.drop 1)

/-- The guarded hyperbolic distance matrix
`d_uv = acosh(1 + maximum(-inner_uv - 1 + eps, eps))`. -/
def d_uv {R : Type} [LinearOrderedField R] (ops : TFOps R)
    (y_pred : List (List (List R))) : List (List R) :=
  ((minkowski_dot (u_emb y_pred) (samples_emb y_pred)).map
      (fun row => row.map (fun v => max (-v - 1 + ops.epsilon) ops.epsilon))).map
    (fun row => row.map (fun v => ops.acosh (1 + v)))

/-- `K.stop_gradient` is the identity on values; its effect on gradients is
modelled by the dual-number development below. -/
def stop_gradient {R : Type} (v : R) : R := v

/-- The logits `minus_d_uv_sq = -0.5 * K.square(d_uv) / sigma_sq` with
`sigma_sq = K.stop_gradient(sigma ** 2)`. -/
def minus_d_uv_sq {R : Type} [LinearOrderedField R] (ops : TFOps R) (σ : R)
    (y_pred : List (List (List R))) : List (List R) :=
  (d_uv ops y_pred).map
    (fun row => row.map (fun d => -(1/2) * d ^ 2 / stop_gradient (σ ^ 2)))

/-- `tf.nn.sparse_softmax_cross_entropy_with_logits`: the categorical cross
entropy `log (Σ_k exp logits_k) - logits[label]` of unnormalised scores. -/
def sparse_ce {R : Type} [LinearOrderedField R] (ops : TFOps R) (label : ℕ)
    (logits : List R) : R :=
  ops.log ((logits.map ops.exp).sum) - logits.getD label 0

/-- `K.mean` of a vector. -/
def listMean {R : Type} [LinearOrderedField R] (l : List R) : R :=
  l.sum / (l.length : R)

/-- `hyperbolic_softmax_loss(sigma)(y_true, y_pred)`: mean over the batch of
the cross entropy between the scaled-distance logits and the label
`y_true[:, 0]`. -/
def hyperbolic_softmax_loss {R : Type} [LinearOrderedField R] (ops : TFOps R)
    (σ : R) (y_true : List (List ℕ)) (y_pred : List (List (List R))) : R :=
  listMean (List.zipWith
    (fun lblRow logits => sparse_ce ops (lblRow.getD 0 0) logits)
    y_true (minus_d_uv_sq ops σ y_pred))

/- Indexing helper lemmas. -/

theorem map_getD {α β : Type} (f : α → β) :
    ∀ (l : List α) (i : ℕ), i < l.length → ∀ (da : α) (db : β),
      (l.map f).getD i db = f (l.getD i da) := by
  intro l
  induction l with
  | nil => intro i h; cases h
  | cons a l ih =>
    intro i h da db
    cases i with
    | zero => rfl
    | succ i => exact ih i (Nat.lt_of_succ_lt_succ h) da db

theorem zipWith_getD {α β γ : Type} (f : α → β → γ) :
    ∀ (as : List α) (bs : List β) (i : ℕ), i < as.length → i < bs.length →
      ∀ (da : α) (db : β) (dc : γ),
      (List.zipWith f as bs).getD i dc = f (as.getD i da) (bs.getD i db) := by
  intro as
  induction as with
  | nil => intro bs i h; cases h
  | cons a as ih =>
    intro bs i ha hb da db dc
    cases bs with
    | nil => cases hb
    | cons b bs =>
      cases i with
      | zero => rfl
      | succ i =>
        exact ih bs i (Nat.lt_of_succ_lt_succ ha) (Nat.lt_of_succ_lt_succ hb)
          da db dc

theorem dropLast_getD {α : Type} :
    ∀ (l : List α) (i : ℕ), i < l.length - 1 → ∀ d : α,
      l.dropLast.getD i d = l.getD i d := by
  intro l
  induction l with
  | nil => intro i h; cases h
  | cons a l ih =>
    intro i h d
    cases l with
    | nil => cases h
    | cons b t =>
      cases i with
      | zero => rfl
      | succ i =>
        have h2 : i < (b :: t).length - 1 := by
          simp only [List.length_cons] at h ⊢
          omega
        have := ih i h2 d
        simpa using this

theorem drop_one_getD {α : Type} (l : List α) (k : ℕ) (d : α) :
    (l.drop 1).getD k d = l.getD (k + 1) d := by
  cases l with
  | nil => rfl
  | cons a t => rfl

theorem timeSlice_eq {R : Type} :
    ∀ (v : List R), 0 < v.length → ∀ d : R,
      timeSlice v = [v.getD (v.length - 1) d] := by
  intro v
  induction v with
  | nil => intro h; cases h
  | cons a t ih =>
    intro _ d
    cases t with
    | nil => rfl
    | cons b u =>
      have h2 := ih (by simp) d
      rw [timeSlice] at h2 ⊢
      have hlen : (a :: b :: u).length - 1 = u.length + 1 := by simp
      have hlen2 : (b :: u).length - 1 = u.length := by simp
      rw [hlen2] at h2
      rw [hlen, List.drop_succ_cons, List.getD_cons_succ]
      exact h2

theorem dotR_eq_sum {R : Type} [LinearOrderedField R] :
    ∀ (n : ℕ) (v w : List R), v.length = n → w.length = n →
      dotR v w = ∑ i in Finset.range n, v.getD i 0 * w.getD i 0 := by
  intro n
  induction n with
  | zero =>
    intro v w hv hw
    rw [List.length_eq_zero] at hv
    subst hv
    simp [dotR]
  | succ n ih =>
    intro v w hv hw
    cases v with
    | nil => cases hv
    | cons a v =>
      cases w with
      | nil => cases hw
      | cons b w =>
        rw [Finset.sum_range_succ']
        simp only [List.getD_cons_succ, List.getD_cons_zero]
        have hsum : dotR (a :: v) (b :: w) = a * b + dotR v w := by
          simp [dotR]
        rw [hsum, ih v w (Nat.succ_injective hv) (Nat.succ_injective hw)]
        ring

theorem getD_mem {α : Type} {l : List α} {n : ℕ} (h : n < l.length) (d : α) :
    l.getD n d ∈ l := by
  rw [List.getD_eq_getElem?_getD, List.getElem?_eq_getElem h]
  exact List.getElem_mem h

/-- C8: entry `(b, k)` of the Minkowski inner-product matrix between each
query (candidate index 0 of `y_pred`) and each candidate is the sum of the
products of the spatial coordinates minus the product of the last (time)
coordinates, and entry `(b, k)` of the distance matrix is
`acosh(1 + max(-dot - 1 + eps, eps))`, the `max` guarding the `acosh`
argument. -/
theorem C8_minkowski_and_distance {R : Type} [LinearOrderedField R]
    (ops : TFOps R) (y_pred : List (List (List R))) (b k dim : ℕ)
    (hb : b < y_pred.length) (hk : k + 1 < (y_pred.getD b []).length)
    (hdim : ∀ v ∈ y_pred.getD b [], v.length = dim) (hd : 0 < dim) :
    ((minkowski_dot (u_emb y_pred) (samples_emb y_pred)).getD b []).getD k 0 =
      (∑ i in Finset.range (dim - 1),
        ((y_pred.getD b []).getD 0 []).getD i 0 *
          ((y_pred.getD b []).getD (k + 1) []).getD i 0) -
        ((y_pred.getD b []).getD 0 []).getD (dim - 1) 0 *
          ((y_pred.getD b []).getD (k + 1) []).getD (dim - 1) 0
    ∧ ((d_uv ops y_pred).getD b []).getD k 0 =
      ops.acosh (1 + max
        (-(((minkowski_dot (u_emb y_pred) (samples_emb y_pred)).getD b
            []).getD k 0) - 1 + ops.epsilon) ops.epsilon) := by
  have hrowlen : 0 < (y_pred.getD b []).length := by omega
  have hulen : ((y_pred.getD b []).getD 0 []).length = dim :=
    hdim _ (getD_mem hrowlen [])
  have hslen : ((y_pred.getD b []).getD (k + 1) []).length = dim :=
    hdim _ (getD_mem hk [])
  have hbu : b < (u_emb y_pred).length := by
    rw [u_emb, List.length_map]
    exact hb
  have hbs : b < (samples_emb y_pred).length := by
    rw [samples_emb, List.length_map]
    exact hb
  have hbk : k < ((y_pred.getD b []).drop 1).length := by
    rw [List.length_drop]
    omega
  have hA : (batch_dot_1_2 ((u_emb y_pred).map spatial)
      ((samples_emb y_pred).map (fun m => m.map spatial))).getD b [] =
      (((y_pred.getD b []).drop 1).map spatial).map
        (fun yv => dotR (spatial ((y_pred.getD b []).getD 0 [])) yv) := by
    rw [batch_dot_1_2,
      zipWith_getD _ _ _ b (by rw [List.length_map]; exact hbu)
        (by rw [List.length_map]; exact hbs) [] [] [],
      map_getD spatial _ b hbu [] [],
      map_getD (fun m => m.map spatial) _ b hbs [] [],
      u_emb, map_getD _ _ b hb [] [],
      samples_emb, map_getD _ _ b hb [] []]
  have hB : (batch_dot_1_2 ((u_emb y_pred).map timeSlice)
      ((samples_emb y_pred).map (fun m => m.map timeSlice))).getD b [] =
      (((y_pred.getD b []).drop 1).map timeSlice).map
        (fun yv => dotR (timeSlice ((y_pred.getD b []).getD 0 [])) yv) := by
    rw [batch_dot_1_2,
      zipWith_getD _ _ _ b (by rw [List.length_map]; exact hbu)
        (by rw [List.length_map]; exact hbs) [] [] [],
      map_getD timeSlice _ b hbu [] [],
      map_getD (fun m => m.map timeSlice) _ b hbs [] [],
      u_emb, map_getD _ _ b hb [] [],
      samples_emb, map_getD _ _ b hb [] []]
  have hlenA : b < (batch_dot_1_2 ((u_emb y_pred).map spatial)
      ((samples_emb y_pred).map (fun m => m.map spatial))).length := by
    rw [batch_dot_1_2, List.length_zipWith, List.length_map, List.length_map]
    exact Nat.lt_min.mpr ⟨hbu, hbs⟩
  have hlenB : b < (batch_dot_1_2 ((u_emb y_pred).map timeSlice)
      ((samples_emb y_pred).map (fun m => m.map timeSlice))).length := by
    rw [batch_dot_1_2, List.length_zipWith, List.length_map, List.length_map]
    exact Nat.lt_min.mpr ⟨hbu, hbs⟩
  have hMb : (minkowski_dot (u_emb y_pred) (samples_emb y_pred)).getD b [] =
      List.zipWith (fun a b => a - b)
        ((batch_dot_1_2 ((u_emb y_pred).map spatial)
          ((samples_emb y_pred).map (fun m => m.map spatial))).getD b [])
        ((batch_dot_1_2 ((u_emb y_pred).map timeSlice)
          ((samples_emb y_pred).map (fun m => m.map timeSlice))).getD b []) := by
    rw [minkowski_dot, zipWith_getD _ _ _ b hlenA hlenB [] [] []]
  have hAk : ((batch_dot_1_2 ((u_emb y_pred).map spatial)
      ((samples_emb y_pred).map (fun m => m.map spatial))).getD b []).getD k 0 =
      dotR (spatial ((y_pred.getD b []).getD 0 []))
        (spatial ((y_pred.getD b []).getD (k + 1) [])) := by
    rw [hA, map_getD _ _ k (by rw [List.length_map]; exact hbk) [] 0,
      map_getD spatial _ k hbk [] [], drop_one_getD]
  have hBk : ((batch_dot_1_2 ((u_emb y_pred).map timeSlice)
      ((samples_emb y_pred).map (fun m => m.map timeSlice))).getD b []).getD k 0 =
      dotR (timeSlice ((y_pred.getD b []).getD 0 []))
        (timeSlice ((y_pred.getD b []).getD (k + 1) [])) := by
    rw [hB, map_getD _ _ k (by rw [List.length_map]; exact hbk) [] 0,
      map_getD timeSlice _ k hbk [] [], drop_one_getD]
  have hM : ((minkowski_dot (u_emb y_pred) (samples_emb y_pred)).getD b
      []).getD k 0 =
      dotR (spatial ((y_pred.getD b []).getD 0 []))
        (spatial ((y_pred.getD b []).getD (k + 1) [])) -
      dotR (timeSlice ((y_pred.getD b []).getD 0 []))
        (timeSlice ((y_pred.getD b []).getD (k + 1) [])) := by
    rw [hMb, zipWith_getD _ _ _ k
      (by rw [hA, List.length_map, List.length_map]; exact hbk)
      (by rw [hB, List.length_map, List.length_map]; exact hbk) 0 0 0,
      hAk, hBk]
  have hspat : dotR (spatial ((y_pred.getD b []).getD 0 []))
      (spatial ((y_pred.getD b []).getD (k + 1) [])) =
      ∑ i in Finset.range (dim - 1),
        ((y_pred.getD b []).getD 0 []).getD i 0 *
          ((y_pred.getD b []).getD (k + 1) []).getD i 0 := by
    rw [dotR_eq_sum (dim - 1) _ _
      (by simp only [spatial, List.length_dropLast, hulen])
      (by simp only [spatial, List.length_dropLast, hslen])]
    apply Finset.sum_congr rfl
    intro i hi
    rw [Finset.mem_range] at hi
    simp only [spatial]
    rw [dropLast_getD _ i (by rw [hulen]; exact hi) 0,
      dropLast_getD _ i (by rw [hslen]; exact hi) 0]
  have htime : dotR (timeSlice ((y_pred.getD b []).getD 0 []))
      (timeSlice ((y_pred.getD b []).getD (k + 1) [])) =
      ((y_pred.getD b []).getD 0 []).getD (dim - 1) 0 *
        ((y_pred.getD b []).getD (k + 1) []).getD (dim - 1) 0 := by
    rw [timeSlice_eq _ (by rw [hulen]; exact hd) 0,
      timeSlice_eq _ (by rw [hslen]; exact hd) 0, hulen, hslen]
    simp [dotR]
  have hlenM : b < (minkowski_dot (u_emb y_pred) (samples_emb y_pred)).length := by
    rw [minkowski_dot, List.length_zipWith]
    exact Nat.lt_min.mpr ⟨hlenA, hlenB⟩
  have hlenMbk : k < ((minkowski_dot (u_emb y_pred)
      (samples_emb y_pred)).getD b []).length := by
    rw [hMb, List.length_zipWith, hA, hB, List.length_map, List.length_map,
      List.length_map, List.length_map]
    exact Nat.lt_min.mpr ⟨hbk, hbk⟩
  refine ⟨by rw [hM, hspat, htime], ?_⟩
  rw [d_uv,
    map_getD _ _ b (by rw [List.length_map]; exact hlenM) [] [],
    map_getD _ _ b hlenM [] [],
    map_getD _ _ k (by rw [List.length_map]; exact hlenMbk) 0 0,
    map_getD _ _ k hlenMbk 0 0]

/-- Forward-mode dual numbers (value, tangent), modelling TensorFlow's
automatic differentiation with respect to the bandwidth `sigma`;
`stop_gradient` zeroes the tangent. -/
structure DualNum (R : Type) where
  val : R
  tan : R

def DualNum.ofConst {R : Type} [LinearOrderedField R] (r : R) : DualNum R :=
  ⟨r, 0⟩

def DualNum.add {R : Type} [LinearOrderedField R] (a b : DualNum R) : DualNum R :=
  ⟨a.val + b.val, a.tan + b.tan⟩

def DualNum.sub {R : Type} [LinearOrderedField R] (a b : DualNum R) : DualNum R :=
  ⟨a.val - b.val, a.tan - b.tan⟩

def DualNum.neg {R : Type} [LinearOrderedField R] (a : DualNum R) : DualNum R :=
  ⟨-a.val, -a.tan⟩

def DualNum.mul {R : Type} [LinearOrderedField R] (a b : DualNum R) : DualNum R :=
  ⟨a.val * b.val, a.val * b.tan + a.tan * b.val⟩

def DualNum.div {R : Type} [LinearOrderedField R] (a b : DualNum R) : DualNum R :=
  ⟨a.val / b.val, (a.tan * b.val - a.val * b.tan) / b.val ^ 2⟩

def DualNum.sq {R : Type} [LinearOrderedField R] (a : DualNum R) : DualNum R :=
  ⟨a.val ^ 2, 2 * a.val * a.tan⟩

/-- `tf.maximum` with its gradient convention (ties route to the first
argument); with both tangents zero the convention is immaterial. -/
def DualNum.maxD {R : Type} [LinearOrderedField R] (a b : DualNum R) : DualNum R :=
  if b.val ≤ a.val then ⟨max a.val b.val, a.tan⟩ else ⟨max a.val b.val, b.tan⟩

/-- `K.stop_gradient`: identity value, zero tangent. -/
def DualNum.stopGrad {R : Type} [LinearOrderedField R] (a : DualNum R) : DualNum R :=
  ⟨a.val, 0⟩

def DualNum.sumL {R : Type} [LinearOrderedField R] (l : List (DualNum R)) : DualNum R :=
  l.foldr DualNum.add ⟨0, 0⟩

/-- The transcendental primitives together with the dual-number rules
TensorFlow's autodiff provides for them.  The theorems below only assume each
rule maps a constant (zero-tangent) input to the constant of the primitive's
value — true of the real AD rules of `exp`, `log` and `acosh`. -/
structure TFOpsD (R : Type) [LinearOrderedField R] where
  ops : TFOps R
  expD : DualNum R → DualNum R
  logD : DualNum R → DualNum R
  acoshD : DualNum R → DualNum R

/- The loss pipeline in dual arithmetic, mirroring each real stage. -/

def dotD {R : Type} [LinearOrderedField R] (v w : List (DualNum R)) : DualNum R :=
  DualNum.sumL (List.zipWith DualNum.mul v w)

def batch_dot_1_2D {R : Type} [LinearOrderedField R]
    (x : List (List (DualNum R))) (y : List (List (List (DualNum R)))) :
    List (List (DualNum R)) :=
  List.zipWith (fun xb yb => yb.map (fun yv => dotD xb yv)) x y

def spatialD {R : Type} (v : List (DualNum R)) : List (DualNum R) := v.dropLast

def timeSliceD {R : Type} (v : List (DualNum R)) : List (DualNum R) :=
  v.drop (v.length - 1)

def minkowski_dotD {R : Type} [LinearOrderedField R]
    (x : List (List (DualNum R))) (y : List (List (List (DualNum R)))) :
    List (List (DualNum R)) :=
  List.zipWith (List.zipWith DualNum.sub)
    (batch_dot_1_2D (x.map spatialD) (y.map (fun m => m.map spatialD)))
    (batch_dot_1_2D (x.map timeSliceD) (y.map (fun m => m.map timeSliceD)))

def u_embD {R : Type} (yp : List (List (List (DualNum R)))) :
    List (List (DualNum R)) :=
  yp.map (fun row => row.getD 0 [])

def samples_embD {R : Type} (yp : List (List (List (DualNum R)))) :
    List (List (List (DualNum R))) :=
  yp.map (fun row => row.drop 1)

def d_uvD {R : Type} [LinearOrderedField R] (opsD : TFOpsD R)
    (yp : List (List (List (DualNum R)))) : List (List (DualNum R)) :=
  ((minkowski_dotD (u_embD yp) (samples_embD yp)).map
      (fun row => row.map (fun v => DualNum.maxD
        (DualNum.add (DualNum.sub (DualNum.neg v) (DualNum.ofConst 1))
          (DualNum.ofConst opsD.ops.epsilon))
        (DualNum.ofConst opsD.ops.epsilon)))).map
    (fun row => row.map (fun v => opsD.acoshD (DualNum.add (DualNum.ofConst 1) v)))

def minus_d_uv_sqD {R : Type} [LinearOrderedField R] (opsD : TFOpsD R)
    (σD : DualNum R) (yp : List (List (List (DualNum R)))) :
    List (List (DualNum R)) :=
  (d_uvD opsD yp).map (fun row => row.map (fun d =>
    DualNum.div (DualNum.mul (DualNum.ofConst (-(1/2))) (DualNum.sq d))
      (DualNum.stopGrad (DualNum.sq σD))))

def sparse_ceD {R : Type} [LinearOrderedField R] (opsD : TFOpsD R) (label : ℕ)
    (logits : List (DualNum R)) : DualNum R :=
  DualNum.sub (opsD.logD (DualNum.sumL (logits.map opsD.expD)))
    (logits.getD label ⟨0, 0⟩)

def listMeanD {R : Type} [LinearOrderedField R] (l : List (DualNum R)) :
    DualNum R :=
  DualNum.div (DualNum.sumL l) (DualNum.ofConst (l.length : R))

def hyperbolic_softmax_lossD {R : Type} [LinearOrderedField R] (opsD : TFOpsD R)
    (σD : DualNum R) (y_true : List (List ℕ))
    (yp : List (List (List (DualNum R)))) : DualNum R :=
  listMeanD (List.zipWith
    (fun lblRow logits => sparse_ceD opsD (lblRow.getD 0 0) logits)
    y_true (minus_d_uv_sqD opsD σD yp))

/-- Lift a constant (with respect to `sigma`) tensor into duals. -/
def liftConsts {R : Type} [LinearOrderedField R]
    (y_pred : List (List (List R))) : List (List (List (DualNum R))) :=
  y_pred.map (fun m => m.map (fun v => v.map DualNum.ofConst))

/- Constants (zero-tangent duals) are preserved by every dual operation:
no gradient is created out of constant inputs. -/

theorem ofConst_add {R : Type} [LinearOrderedField R] (a b : R) :
    DualNum.add (DualNum.ofConst a) (DualNum.ofConst b) =
      DualNum.ofConst (a + b) := by
  simp [DualNum.add, DualNum.ofConst]

theorem ofConst_sub {R : Type} [LinearOrderedField R] (a b : R) :
    DualNum.sub (DualNum.ofConst a) (DualNum.ofConst b) =
      DualNum.ofConst (a - b) := by
  simp [DualNum.sub, DualNum.ofConst]

theorem ofConst_neg {R : Type} [LinearOrderedField R] (a : R) :
    DualNum.neg (DualNum.ofConst a) = DualNum.ofConst (-a) := by
  simp [DualNum.neg, DualNum.ofConst]

theorem ofConst_mul {R : Type} [LinearOrderedField R] (a b : R) :
    DualNum.mul (DualNum.ofConst a) (DualNum.ofConst b) =
      DualNum.ofConst (a * b) := by
  simp [DualNum.mul, DualNum.ofConst]

theorem ofConst_div {R : Type} [LinearOrderedField R] (a b : R) :
    DualNum.div (DualNum.ofConst a) (DualNum.ofConst b) =
      DualNum.ofConst (a / b) := by
  simp [DualNum.div, DualNum.ofConst]

theorem ofConst_sq {R : Type} [LinearOrderedField R] (a : R) :
    DualNum.sq (DualNum.ofConst a) = DualNum.ofConst (a ^ 2) := by
  simp [DualNum.sq, DualNum.ofConst]

theorem ofConst_maxD {R : Type} [LinearOrderedField R] (a b : R) :
    DualNum.maxD (DualNum.ofConst a) (DualNum.ofConst b) =
      DualNum.ofConst (max a b) := by
  rw [DualNum.maxD]
  split <;> rfl

theorem stopGrad_sq {R : Type} [LinearOrderedField R] (σD : DualNum R) :
    DualNum.stopGrad (DualNum.sq σD) = DualNum.ofConst (σD.val ^ 2) := rfl

theorem sumL_lift {R : Type} [LinearOrderedField R] :
    ∀ l : List R, DualNum.sumL (l.map DualNum.ofConst) =
      DualNum.ofConst l.sum := by
  intro l
  induction l with
  | nil => simp [DualNum.sumL, DualNum.ofConst]
  | cons a l ih =>
    simp only [List.map_cons, DualNum.sumL, List.foldr_cons, List.sum_cons]
    rw [show (List.foldr DualNum.add ⟨0, 0⟩ (l.map DualNum.ofConst)) =
      DualNum.sumL (l.map DualNum.ofConst) from rfl, ih, ofConst_add]

/-- An elementwise dual rule that preserves constants lifts through `map`. -/
theorem map_lift {R : Type} [LinearOrderedField R] (fD : DualNum R → DualNum R)
    (f : R → R) (hf : ∀ r, fD (DualNum.ofConst r) = DualNum.ofConst (f r)) :
    ∀ row : List R, (row.map DualNum.ofConst).map fD =
      (row.map f).map DualNum.ofConst := by
  intro row
  induction row with
  | nil => rfl
  | cons a row ih =>
    simp only [List.map_cons, hf, ih]

theorem zipWith_mul_lift {R : Type} [LinearOrderedField R] :
    ∀ v w : List R,
      List.zipWith DualNum.mul (v.map DualNum.ofConst) (w.map DualNum.ofConst) =
        (List.zipWith (fun a b => a * b) v w).map DualNum.ofConst := by
  intro v
  induction v with
  | nil => intro w; rfl
  | cons a v ih =>
    intro w
    cases w with
    | nil => rfl
    | cons b w =>
      simp only [List.map_cons, List.zipWith_cons_cons, ofConst_mul, ih]

theorem zipWith_sub_lift {R : Type} [LinearOrderedField R] :
    ∀ v w : List R,
      List.zipWith DualNum.sub (v.map DualNum.ofConst) (w.map DualNum.ofConst) =
        (List.zipWith (fun a b => a - b) v w).map DualNum.ofConst := by
  intro v
  induction v with
  | nil => intro w; rfl
  | cons a v ih =>
    intro w
    cases w with
    | nil => rfl
    | cons b w =>
      simp only [List.map_cons, List.zipWith_cons_cons, ofConst_sub, ih]

theorem dotD_lift {R : Type} [LinearOrderedField R] (v w : List R) :
    dotD (v.map DualNum.ofConst) (w.map DualNum.ofConst) =
      DualNum.ofConst (dotR v w) := by
  rw [dotD, zipWith_mul_lift, sumL_lift, dotR]

theorem getD_zero_map_nil {α β : Type} (f : List α → List β) (hf : f [] = []) :
    ∀ (l : List (List α)) (i : ℕ), (l.map f).getD i [] = f (l.getD i []) := by
  intro l
  induction l with
  | nil =>
    intro i
    simp [hf]
  | cons a l ih =>
    intro i
    cases i with
    | zero => rfl
    | succ i => exact ih i

theorem getD_map_ofConst {R : Type} [LinearOrderedField R] :
    ∀ (l : List R) (i : ℕ),
      (l.map DualNum.ofConst).getD i ⟨0, 0⟩ =
        DualNum.ofConst (l.getD i 0) := by
  intro l
  induction l with
  | nil => intro i; rfl
  | cons a l ih =>
    intro i
    cases i with
    | zero => rfl
    | succ i => exact ih i

theorem vec_spatialD_lift {R : Type} [LinearOrderedField R] (v : List R) :
    spatialD (v.map DualNum.ofConst) = (spatial v).map DualNum.ofConst := by
  rw [spatialD, spatial]
  exact (List.map_dropLast DualNum.ofConst v).symm

theorem vec_timeSliceD_lift {R : Type} [LinearOrderedField R] (v : List R) :
    timeSliceD (v.map DualNum.ofConst) = (timeSlice v).map DualNum.ofConst := by
  rw [timeSliceD, timeSlice, List.length_map]
  exact (List.map_drop DualNum.ofConst v (v.length - 1)).symm

theorem map_spatialD_lift {R : Type} [LinearOrderedField R] :
    ∀ x : List (List R),
      (x.map (fun v => v.map DualNum.ofConst)).map spatialD =
        (x.map spatial).map (fun v => v.map DualNum.ofConst) := by
  intro x
  induction x with
  | nil => rfl
  | cons v x ih => simp only [List.map_cons, vec_spatialD_lift, ih]

theorem map_timeSliceD_lift {R : Type} [LinearOrderedField R] :
    ∀ x : List (List R),
      (x.map (fun v => v.map DualNum.ofConst)).map timeSliceD =
        (x.map timeSlice).map (fun v => v.map DualNum.ofConst) := by
  intro x
  induction x with
  | nil => rfl
  | cons v x ih => simp only [List.map_cons, vec_timeSliceD_lift, ih]

theorem mat_spatialD_lift {R : Type} [LinearOrderedField R] :
    ∀ y : List (List (List R)),
      (y.map (fun m => m.map (fun v => v.map DualNum.ofConst))).map
          (fun m => m.map spatialD) =
        (y.map (fun m => m.map spatial)).map
          (fun m => m.map (fun v => v.map DualNum.ofConst)) := by
  intro y
  induction y with
  | nil => rfl
  | cons m y ih =>
    simp only [List.map_cons, ih]
    rw [show (m.map (fun v => v.map DualNum.ofConst)).map spatialD =
      (m.map spatial).map (fun v => v.map DualNum.ofConst) from
        map_spatialD_lift m]

theorem mat_timeSliceD_lift {R : Type} [LinearOrderedField R] :
    ∀ y : List (List (List R)),
      (y.map (fun m => m.map (fun v => v.map DualNum.ofConst))).map
          (fun m => m.map timeSliceD) =
        (y.map (fun m => m.map timeSlice)).map
          (fun m => m.map (fun v => v.map DualNum.ofConst)) := by
  intro y
  induction y with
  | nil => rfl
  | cons m y ih =>
    simp only [List.map_cons, ih]
    rw [show (m.map (fun v => v.map DualNum.ofConst)).map timeSliceD =
      (m.map timeSlice).map (fun v => v.map DualNum.ofConst) from
        map_timeSliceD_lift m]

theorem batch_row_lift {R : Type} [LinearOrderedField R] (xb : List R) :
    ∀ yb : List (List R),
      (yb.map (fun v => v.map DualNum.ofConst)).map
          (fun yv => dotD (xb.map DualNum.ofConst) yv) =
        (yb.map (fun yv => dotR xb yv)).map DualNum.ofConst := by
  intro yb
  induction yb with
  | nil => rfl
  | cons v yb ih => simp only [List.map_cons, dotD_lift, ih]

theorem batch_dotD_lift {R : Type} [LinearOrderedField R] :
    ∀ (x : List (List R)) (y : List (List (List R))),
      batch_dot_1_2D (x.map (fun v => v.map DualNum.ofConst))
          (y.map (fun m => m.map (fun v => v.map DualNum.ofConst))) =
        (batch_dot_1_2 x y).map (fun v => v.map DualNum.ofConst) := by
  intro x
  induction x with
  | nil => intro y; rfl
  | cons xb x ih =>
    intro y
    cases y with
    | nil => rfl
    | cons yb y =>
      simp only [batch_dot_1_2D, batch_dot_1_2, List.map_cons,
        List.zipWith_cons_cons]
      rw [batch_row_lift xb yb]
      exact congrArg _ (ih y)

theorem mat_zipWith_sub_lift {R : Type} [LinearOrderedField R] :
    ∀ A B : List (List R),
      List.zipWith (List.zipWith DualNum.sub)
          (A.map (fun v => v.map DualNum.ofConst))
          (B.map (fun v => v.map DualNum.ofConst)) =
        (List.zipWith (List.zipWith (fun a b => a - b)) A B).map
          (fun v => v.map DualNum.ofConst) := by
  intro A
  induction A with
  | nil => intro B; rfl
  | cons a A ih =>
    intro B
    cases B with
    | nil => rfl
    | cons b B =>
      simp only [List.map_cons, List.zipWith_cons_cons]
      rw [zipWith_sub_lift a b]
      exact congrArg _ (ih B)

theorem minkowski_dotD_lift {R : Type} [LinearOrderedField R]
    (x : List (List R)) (y : List (List (List R))) :
    minkowski_dotD (x.map (fun v => v.map DualNum.ofConst))
        (y.map (fun m => m.map (fun v => v.map DualNum.ofConst))) =
      (minkowski_dot x y).map (fun v => v.map DualNum.ofConst) := by
  rw [minkowski_dotD, minkowski_dot, map_spatialD_lift, map_timeSliceD_lift,
    mat_spatialD_lift, mat_timeSliceD_lift, batch_dotD_lift, batch_dotD_lift,
    mat_zipWith_sub_lift]

theorem u_embD_lift {R : Type} [LinearOrderedField R] :
    ∀ yp : List (List (List R)),
      u_embD (liftConsts yp) =
        (u_emb yp).map (fun v => v.map DualNum.ofConst) := by
  intro yp
  induction yp with
  | nil => rfl
  | cons m yp ih =>
    simp only [liftConsts, u_embD, u_emb, List.map_cons] at ih ⊢
    rw [getD_zero_map_nil (fun v => v.map DualNum.ofConst) rfl m]
    exact congrArg _ ih

theorem samples_embD_lift {R : Type} [LinearOrderedField R] :
    ∀ yp : List (List (List R)),
      samples_embD (liftConsts yp) =
        (samples_emb yp).map (fun m => m.map (fun v => v.map DualNum.ofConst)) := by
  intro yp
  induction yp with
  | nil => rfl
  | cons m yp ih =>
    simp only [liftConsts, samples_embD, samples_emb, List.map_cons] at ih ⊢
    rw [(List.map_drop (fun v => v.map DualNum.ofConst) m 1).symm]
    exact congrArg _ ih

theorem map_map_lift {R : Type} [LinearOrderedField R]
    (fD : DualNum R → DualNum R) (f : R → R)
    (hf : ∀ r, fD (DualNum.ofConst r) = DualNum.ofConst (f r)) :
    ∀ m : List (List R),
      (m.map (fun row => row.map DualNum.ofConst)).map (fun row => row.map fD) =
        (m.map (fun row => row.map f)).map (fun row => row.map DualNum.ofConst) := by
  intro m
  induction m with
  | nil => rfl
  | cons row m ih =>
    simp only [List.map_cons, ih]
    rw [map_lift fD f hf row]

theorem d_uvD_lift {R : Type} [LinearOrderedField R] (opsD : TFOpsD R)
    (hacosh : ∀ r : R, opsD.acoshD (DualNum.ofConst r) =
      DualNum.ofConst (opsD.ops.acosh r))
    (y_pred : List (List (List R))) :
    d_uvD opsD (liftConsts y_pred) =
      (d_uv opsD.ops y_pred).map (fun row => row.map DualNum.ofConst) := by
  rw [d_uvD, d_uv, u_embD_lift, samples_embD_lift, minkowski_dotD_lift,
    map_map_lift _ (fun v => max (-v - 1 + opsD.ops.epsilon) opsD.ops.epsilon)
      (fun r => by rw [ofConst_neg, ofConst_sub, ofConst_add, ofConst_maxD]),
    map_map_lift _ (fun v => opsD.ops.acosh (1 + v))
      (fun r => by rw [ofConst_add, hacosh])]

theorem minus_d_uv_sqD_lift {R : Type} [LinearOrderedField R] (opsD : TFOpsD R)
    (hacosh : ∀ r : R, opsD.acoshD (DualNum.ofConst r) =
      DualNum.ofConst (opsD.ops.acosh r))
    (σD : DualNum R) (y_pred : List (List (List R))) :
    minus_d_uv_sqD opsD σD (liftConsts y_pred) =
      (minus_d_uv_sq opsD.ops σD.val y_pred).map
        (fun row => row.map DualNum.ofConst) := by
  rw [minus_d_uv_sqD, minus_d_uv_sq, d_uvD_lift opsD hacosh,
    map_map_lift _ (fun d => -(1/2) * d ^ 2 / stop_gradient (σD.val ^ 2))
      (fun r => by
        rw [ofConst_sq, ofConst_mul, stopGrad_sq, ofConst_div]
        rfl)]

theorem sparse_ceD_lift {R : Type} [LinearOrderedField R] (opsD : TFOpsD R)
    (hexp : ∀ r : R, opsD.expD (DualNum.ofConst r) =
      DualNum.ofConst (opsD.ops.exp r))
    (hlog : ∀ r : R, opsD.logD (DualNum.ofConst r) =
      DualNum.ofConst (opsD.ops.log r))
    (label : ℕ) (row : List R) :
    sparse_ceD opsD label (row.map DualNum.ofConst) =
      DualNum.ofConst (sparse_ce opsD.ops label row) := by
  rw [sparse_ceD, map_lift opsD.expD opsD.ops.exp hexp, sumL_lift, hlog,
    getD_map_ofConst, ofConst_sub, sparse_ce]

theorem ce_zipWith_lift {R : Type} [LinearOrderedField R] (opsD : TFOpsD R)
    (hexp : ∀ r : R, opsD.expD (DualNum.ofConst r) =
      DualNum.ofConst (opsD.ops.exp r))
    (hlog : ∀ r : R, opsD.logD (DualNum.ofConst r) =
      DualNum.ofConst (opsD.ops.log r)) :
    ∀ (y_true : List (List ℕ)) (M : List (List R)),
      List.zipWith (fun lblRow logits => sparse_ceD opsD (lblRow.getD 0 0) logits)
          y_true (M.map (fun row => row.map DualNum.ofConst)) =
        (List.zipWith (fun lblRow logits =>
          sparse_ce opsD.ops (lblRow.getD 0 0) logits) y_true M).map
          DualNum.ofConst := by
  intro y_true
  induction y_true with
  | nil => intro M; rfl
  | cons r y_true ih =>
    intro M
    cases M with
    | nil => rfl
    | cons row M =>
      simp only [List.map_cons, List.zipWith_cons_cons]
      rw [sparse_ceD_lift opsD hexp hlog]
      exact congrArg _ (ih M)

theorem listMeanD_lift {R : Type} [LinearOrderedField R] (l : List R) :
    listMeanD (l.map DualNum.ofConst) = DualNum.ofConst (listMean l) := by
  rw [listMeanD, sumL_lift, List.length_map, ofConst_div, listMean]

/-- The whole dual loss on constant inputs is the constant of the real loss:
with `stop_gradient` around `sigma ** 2`, the tangent seeded on `sigma` never
reaches the output. -/
theorem lossD_lift {R : Type} [LinearOrderedField R] (opsD : TFOpsD R)
    (σD : DualNum R) (y_true : List (List ℕ)) (y_pred : List (List (List R)))
    (hexp : ∀ r : R, opsD.expD (DualNum.ofConst r) =
      DualNum.ofConst (opsD.ops.exp r))
    (hlog : ∀ r : R, opsD.logD (DualNum.ofConst r) =
      DualNum.ofConst (opsD.ops.log r))
    (hacosh : ∀ r : R, opsD.acoshD (DualNum.ofConst r) =
      DualNum.ofConst (opsD.ops.acosh r)) :
    hyperbolic_softmax_lossD opsD σD y_true (liftConsts y_pred) =
      DualNum.ofConst (hyperbolic_softmax_loss opsD.ops σD.val y_true y_pred) := by
  rw [hyperbolic_softmax_lossD, hyperbolic_softmax_loss,
    minus_d_uv_sqD_lift opsD hacosh, ce_zipWith_lift opsD hexp hlog,
    listMeanD_lift]

theorem zipWith_congr_left {α β γ : Type} (f g : α → β → γ) :
    ∀ (as : List α) (bs : List β), (∀ a ∈ as, ∀ b, f a b = g a b) →
      List.zipWith f as bs = List.zipWith g as bs := by
  intro as
  induction as with
  | nil => intro bs _; rfl
  | cons a as ih =>
    intro bs h
    cases bs with
    | nil => rfl
    | cons b bs =>
      simp only [List.zipWith_cons_cons]
      rw [h a (List.mem_cons_self a as) b,
        ih bs (fun x hx b0 => h x (List.mem_cons_of_mem a hx) b0)]

/-- C9: each logit is `-0.5 * d^2 / sigma^2`, with `sigma^2` passing through
`stop_gradient`; the loss is the batch mean of the categorical cross entropy
between these logits and the label `y_true[:, 0]`, hence against index 0 (the
positive sample) whenever the labels follow the always-0 convention; and the
tangent of the dual-number (TensorFlow-gradient) computation seeded on
`sigma` is 0: no gradient flows through `sigma^2`. -/
theorem C9_logits_ce_stop_gradient {R : Type} [LinearOrderedField R]
    (opsD : TFOpsD R) (σ : R) (y_true : List (List ℕ))
    (y_pred : List (List (List R))) (b k : ℕ)
    (hb : b < (d_uv opsD.ops y_pred).length)
    (hk : k < ((d_uv opsD.ops y_pred).getD b []).length)
    (hlbl : ∀ r ∈ y_true, r.getD 0 0 = 0)
    (hexp : ∀ r : R, opsD.expD (DualNum.ofConst r) =
      DualNum.ofConst (opsD.ops.exp r))
    (hlog : ∀ r : R, opsD.logD (DualNum.ofConst r) =
      DualNum.ofConst (opsD.ops.log r))
    (hacosh : ∀ r : R, opsD.acoshD (DualNum.ofConst r) =
      DualNum.ofConst (opsD.ops.acosh r)) :
    ((minus_d_uv_sq opsD.ops σ y_pred).getD b []).getD k 0 =
      -(1/2) * (((d_uv opsD.ops y_pred).getD b []).getD k 0) ^ 2 / σ ^ 2
    ∧ hyperbolic_softmax_loss opsD.ops σ y_true y_pred =
        listMean (List.zipWith (fun _ logits => sparse_ce opsD.ops 0 logits)
          y_true (minus_d_uv_sq opsD.ops σ y_pred))
    ∧ (hyperbolic_softmax_lossD opsD ⟨σ, 1⟩ y_true (liftConsts y_pred)).val =
        hyperbolic_softmax_loss opsD.ops σ y_true y_pred
    ∧ (hyperbolic_softmax_lossD opsD ⟨σ, 1⟩ y_true (liftConsts y_pred)).tan = 0 := by
  have hlift := lossD_lift opsD ⟨σ, 1⟩ y_true y_pred hexp hlog hacosh
  refine ⟨?_, ?_, ?_, ?_⟩
  · rw [minus_d_uv_sq, map_getD _ _ b hb [] [], map_getD _ _ k hk 0 0]
    rfl
  · rw [hyperbolic_softmax_loss]
    rw [zipWith_congr_left _ (fun _ logits => sparse_ce opsD.ops 0 logits)
      y_true (minus_d_uv_sq opsD.ops σ y_pred)
      (fun r hr logits => by rw [hlbl r hr])]
  · rw [hlift]
    rfl
  · rw [hlift]
    rfl


def testOps : TFOps ℚ where
  exp := fun x => x
  log := fun x => x
  acosh := fun x => x
  epsilon := 1 / 10 ^ 7

def testOpsD : TFOpsD ℚ where
  ops := testOps
  expD := fun d => ⟨d.val, d.tan⟩
  logD := fun d => ⟨d.val, d.tan⟩
  acoshD := fun d => ⟨d.val, d.tan⟩

theorem C8_minkowski_and_distance_witness :
    (0 : ℕ) < ([[[(1 : ℚ), 2], [3, 4]]] : List (List (List ℚ))).length
    ∧ (0 : ℕ) + 1 < ([[(1 : ℚ), 2], [3, 4]] : List (List ℚ)).length
    ∧ ((minkowski_dot (u_emb [[[(1 : ℚ), 2], [3, 4]]])
        (samples_emb [[[(1 : ℚ), 2], [3, 4]]])).getD 0 []).getD 0 0 = -5 := by
  have h := C8_minkowski_and_distance testOps [[[(1 : ℚ), 2], [3, 4]]] 0 0 2
    (by decide) (by decide) (by decide) (by decide)
  refine ⟨by decide, by decide, ?_⟩
  rw [h.1]
  norm_num [Finset.sum_range_one]

theorem C9_logits_ce_stop_gradient_witness :
    ((0 : ℕ) < (d_uv testOps [[[(1 : ℚ), 2], [3, 4]]]).length)
    ∧ (∀ r ∈ ([[0]] : List (List ℕ)), r.getD 0 0 = 0)
    ∧ ((minus_d_uv_sq testOps 1 [[[(1 : ℚ), 2], [3, 4]]]).getD 0 []).getD 0 0 =
        -(1/2) * (((d_uv testOps [[[(1 : ℚ), 2], [3, 4]]]).getD 0 []).getD 0 0) ^ 2
          / (1 : ℚ) ^ 2
    ∧ (hyperbolic_softmax_lossD testOpsD ⟨1, 1⟩ [[0]]
        (liftConsts [[[(1 : ℚ), 2], [3, 4]]])).tan = 0 := by
  have h := C9_logits_ce_stop_gradient testOpsD 1 [[0]] [[[(1 : ℚ), 2], [3, 4]]]
    0 0 (by decide) (by decide) (by decide) (fun r => rfl) (fun r => rfl)
    (fun r => rfl)
  exact ⟨by decide, by decide, h.1, h.2.2.2⟩
